import Mathlib

/-!
Verification development for the glp MITM proxy (github.com/whoisnian/glp).

The Go sources are shallowly embedded: bytes are natural numbers below 256,
byte strings are lists, Go slices that can go out of range are modelled with
helpers returning an explicit failure (a Go slice expression whose bounds
exceed the slice length is a runtime panic; we model it as the failure value
GoPanic), and external library calls (golang.org/x/net/publicsuffix,
net.ParseIP, the random source, the network connection) are passed in as
explicit parameters, so every repository function becomes a pure total Lean
function on its inputs plus those oracles.
-/

set_option maxRecDepth 4000

namespace Glp

/-- Bytes are naturals; the embedded code only ever compares them or combines
them with shifts, so the invariant value < 256 is carried where needed. -/
abbrev Byte := Nat

/-! ## Go slice primitives

Failure of a slice or index expression models the Go runtime panic
(slice bounds out of range / index out of range). -/

/-- Outcome of embedded parsing code: a returned error string from the Go
function, or a runtime panic from an out-of-range slice or index. -/
inductive PFail where
  | msg (s : String)
  | goPanic
  deriving DecidableEq, Repr

/-- Decidable equality for Except results, used to evaluate embedded
functions on concrete inputs. -/
instance exceptDecEq {ε α : Type} [DecidableEq ε] [DecidableEq α] :
    DecidableEq (Except ε α)
  | .ok a, .ok b =>
    if h : a = b then .isTrue (by rw [h]) else .isFalse (by simp [h])
  | .ok _, .error _ => .isFalse (by simp)
  | .error _, .ok _ => .isFalse (by simp)
  | .error a, .error b =>
    if h : a = b then .isTrue (by rw [h]) else .isFalse (by simp [h])

/-- Go expression data[i]: panics when i is not below the length. -/
def goIdx (xs : List Byte) (i : Nat) : Except PFail Byte :=
  match xs[i]? with
  | some b => .ok b
  | none => .error .goPanic

/-- Go expression data[n:]: panics when n exceeds the length. -/
def goDrop (n : Nat) (xs : List Byte) : Except PFail (List Byte) :=
  if n ≤ xs.length then .ok (xs.drop n) else .error .goPanic

/-- Go expression data[lo:hi]: panics when lo exceeds hi or hi exceeds the
length. (When hi is below the capacity Go would instead read stale bytes
beyond the length; every theorem below that relies on this helper either
stays in range or uses the lo-above-length case, where Go panics too.) -/
def goSlice (xs : List Byte) (lo hi : Nat) : Except PFail (List Byte) :=
  if lo ≤ hi ∧ hi ≤ xs.length then .ok ((xs.take hi).drop lo) else .error .goPanic

/-! ## Domain helpers (strings as character lists)

src/ca/ca.go asteriskFor and src/proxy/proxy.go wildcardFor operate on
domain strings with strings.Count and strings.IndexByte; domains are
embedded as character lists. -/

/-- Go strings.Count(domain, ".") on a character list. -/
def dotCount (d : List Char) : Nat := d.countP (fun c => c = '.')

/-- Index of the first dot, Go strings.IndexByte(domain, '.'). The callers
below only use it when at least one dot exists. -/
def dotIdx (d : List Char) : Nat := d.findIdx (fun c => c = '.')

/-- Go expression domain[pos:] with pos = IndexByte(domain, '.'): the suffix
from the first dot on, dot included. -/
def fromFirstDot (d : List Char) : List Char := d.drop (dotIdx d)

/-- Go expression domain[pos+1:]: everything after the first dot. -/
def afterFirstDot (d : List Char) : List Char := d.drop (dotIdx d + 1)

/-- Embeds asteriskFor from src/ca/ca.go lines 332-367 (identical to
wildcardFor in src/proxy/proxy.go lines 226-261). The public-suffix lookup
publicsuffix.PublicSuffix(domain) is an external table; the embedding takes
its two observable outputs as parameters: dotSuffix, the dot count of the
returned suffix, and icann, its ICANN flag. -/
def asteriskFor (domain : List Char) (dotSuffix : Nat) (icann : Bool) :
    List (List Char) :=
  let dotSum := dotCount domain
  if dotSum = 0 then
    [domain]
  else if icann then
    if dotSum = dotSuffix then
      [domain]
    else if dotSum - dotSuffix = 1 then
      (['*', '.'] ++ domain) :: [domain]
    else if dotSum - dotSuffix = 2 then
      ('*' :: fromFirstDot domain) :: [afterFirstDot domain]
    else
      ['*' :: fromFirstDot domain]
  else
    if dotSum = 1 ∨ dotSum = dotSuffix then
      (['*', '.'] ++ domain) :: [domain]
    else if dotSum - dotSuffix = 1 then
      ('*' :: fromFirstDot domain) :: [afterFirstDot domain]
    else
      ['*' :: fromFirstDot domain]

/-- The wildcard-base table exactly as claim C1 words it: the ICANN rows are
keyed by d - s, and a non-ICANN suffix uses the same rows except that
d = 1 or d = s triggers the promotion to wildcard plus bare name. -/
def wildcardBaseClaimC1 (domain : List Char) (s : Nat) (icann : Bool) :
    List (List Char) :=
  let d := dotCount domain
  let tail := afterFirstDot domain
  if d = 0 then
    [domain]
  else if icann then
    if d = s then [domain]
    else if d - s = 1 then [['*', '.'] ++ domain, domain]
    else if d - s = 2 then [['*', '.'] ++ tail, tail]
    else [['*', '.'] ++ tail]
  else
    if d = 1 ∨ d = s then [['*', '.'] ++ domain, domain]
    else if d - s = 1 then [['*', '.'] ++ domain, domain]
    else if d - s = 2 then [['*', '.'] ++ tail, tail]
    else [['*', '.'] ++ tail]

/-- The amended wildcard-base table: as the claim states it for ICANN
suffixes, but for a non-ICANN suffix every row shifts down one step:
d = 1 or d = s promotes to wildcard plus bare name, d - s = 1 yields
wildcard-of-tail plus tail, and everything deeper yields only the
wildcard of the tail. -/
def wildcardBaseAmendedC1 (domain : List Char) (s : Nat) (icann : Bool) :
    List (List Char) :=
  let d := dotCount domain
  let tail := afterFirstDot domain
  if d = 0 then
    [domain]
  else if icann then
    if d = s then [domain]
    else if d - s = 1 then [['*', '.'] ++ domain, domain]
    else if d - s = 2 then [['*', '.'] ++ tail, tail]
    else [['*', '.'] ++ tail]
  else
    if d = 1 ∨ d = s then [['*', '.'] ++ domain, domain]
    else if d - s = 1 then [['*', '.'] ++ tail, tail]
    else [['*', '.'] ++ tail]

/-! ## ClientHello parsing, src/proxy/sniff.go

parseHandshakeRecord (lines 104-152) walks the handshake body with raw Go
slice expressions and no bounds checks; the embedding therefore threads the
panic-modelling helpers above through every step, in source order. -/

/-- Inner server_name_list loop of parseHandshakeRecord (sniff.go lines
139-147): scan the entries, return the first name with name_type zero and a
positive length, or none when the list is exhausted. -/
def sniEntryLoop (extData : List Byte) : Except PFail (Option (List Byte)) :=
  if h0 : extData = [] then .ok none
  else
    match goIdx extData 0, goIdx extData 1, goIdx extData 2 with
    | .ok nameType, .ok n1, .ok n2 =>
      let nameLength := n1 * 256 + n2
      if nameType = 0 ∧ 0 < nameLength then
        match goSlice extData 3 (3 + nameLength) with
        | .ok name => .ok (some name)
        | .error e => .error e
      else
        match h : goDrop (3 + nameLength) extData with
        | .ok rest => sniEntryLoop rest
        | .error e => .error e
    | .error e, _, _ => .error e
    | _, .error e, _ => .error e
    | _, _, .error e => .error e
termination_by extData.length
decreasing_by
  simp only [goDrop] at h
  split at h
  · cases h
    have hpos : 0 < extData.length := List.length_pos.mpr h0
    simp only [List.length_drop]
    omega
  · cases h

/-- Outer extensions loop of parseHandshakeRecord (sniff.go lines 131-149):
for each extension read type and length, slice the payload, and inside a
server_name extension run the entry loop; an empty result string means the
loop ran out of extensions. -/
def extLoop (data : List Byte) : Except PFail (List Byte) :=
  if h0 : data = [] then .ok []
  else
    match goIdx data 0, goIdx data 1, goIdx data 2, goIdx data 3 with
    | .ok t0, .ok t1, .ok l0, .ok l1 =>
      let extType := t0 * 256 + t1
      let extLength := l0 * 256 + l1
      match goSlice data 4 (4 + extLength) with
      | .ok extData =>
        if extType = 0 then
          match goDrop 2 extData with
          | .ok extData2 =>
            match sniEntryLoop extData2 with
            | .ok (some name) => .ok name
            | .ok none =>
              match h : goDrop (4 + extLength) data with
              | .ok rest => extLoop rest
              | .error e => .error e
            | .error e => .error e
          | .error e => .error e
        else
          match h : goDrop (4 + extLength) data with
          | .ok rest => extLoop rest
          | .error e => .error e
      | .error e => .error e
    | .error e, _, _, _ => .error e
    | _, .error e, _, _ => .error e
    | _, _, .error e, _ => .error e
    | _, _, _, .error e => .error e
termination_by data.length
decreasing_by
  all_goals
    simp only [goDrop] at h
    split at h
    · cases h
      have hpos : 0 < data.length := List.length_pos.mpr h0
      simp only [List.length_drop]
      omega
    · cases h

/-- Embeds parseHandshakeRecord from src/proxy/sniff.go lines 104-152. The
skips of SessionID, CipherSuites and CompressionMethods are unguarded Go
slice expressions, so each can panic on a short record. -/
def parseHandshakeRecord (data0 : List Byte) : Except PFail (List Byte) :=
  match goIdx data0 0 with
  | .error e => .error e
  | .ok b0 =>
    if b0 ≠ 0x01 then .error (.msg "proxy: invalid TLS client hello message type")
    else
      match goDrop 38 data0 with
      | .error e => .error e
      | .ok d1 =>
        match goIdx d1 0 with
        | .error e => .error e
        | .ok sessionIdLength =>
          match goDrop (1 + sessionIdLength) d1 with
          | .error e => .error e
          | .ok d2 =>
            match goIdx d2 0, goIdx d2 1 with
            | .ok c0, .ok c1 =>
              match goDrop (2 + (c0 * 256 + c1)) d2 with
              | .error e => .error e
              | .ok d3 =>
                match goIdx d3 0 with
                | .error e => .error e
                | .ok m0 =>
                  match goDrop (1 + m0) d3 with
                  | .error e => .error e
                  | .ok d4 =>
                    if d4.length = 0 then .ok []
                    else
                      match goIdx d4 0, goIdx d4 1 with
                      | .ok e0, .ok e1 =>
                        match goDrop 2 d4 with
                        | .error e => .error e
                        | .ok d5 =>
                          if d5.length ≠ e0 * 256 + e1 then
                            .error (.msg "proxy: invalid client hello extensions length")
                          else extLoop d5
                      | .error e, _ => .error e
                      | _, .error e => .error e
            | .error e, _ => .error e
            | _, .error e => .error e

/-! ## ClientHello parsing, src/proxy/tls.go

parseHandshake (lines 91-181) is the guarded variant: every slice is
preceded by an explicit length check and every inconsistency returns an
error string. The embedding uses the same panic-modelling helpers so that
freedom from panics is a provable statement, not a modelling artefact. -/

/-- Inner ServerName loop of parseHandshake (tls.go lines 161-175). -/
def nameEntryLoop (extensionData : List Byte) : Except PFail (List Byte) :=
  if h0 : extensionData = [] then .ok []
  else if extensionData.length < 3 then .error (.msg "invalid ServerName in extension")
  else
    match goIdx extensionData 0, goIdx extensionData 1, goIdx extensionData 2 with
    | .ok nameType, .ok n1, .ok n2 =>
      let nameLength := n1 * 256 + n2
      match h3 : goDrop 3 extensionData with
      | .error e => .error e
      | .ok rest0 =>
        if rest0.length < nameLength then
          .error (.msg "invalid ServerName length in extension")
        else if nameType = 0 ∧ 0 < nameLength then
          match goSlice rest0 0 nameLength with
          | .ok name => .ok name
          | .error e => .error e
        else
          match h : goDrop nameLength rest0 with
          | .ok rest => nameEntryLoop rest
          | .error e => .error e
    | .error e, _, _ => .error e
    | _, .error e, _ => .error e
    | _, _, .error e => .error e
termination_by extensionData.length
decreasing_by
  simp only [goDrop] at h3 h
  split at h3
  · cases h3
    split at h
    · cases h
      have hpos : 0 < extensionData.length := List.length_pos.mpr h0
      simp only [List.length_drop]
      omega
    · cases h
  · cases h3

/-- Outer extensions loop of parseHandshake (tls.go lines 138-178). -/
def extGuardLoop (data : List Byte) : Except PFail (List Byte) :=
  if h0 : data = [] then .ok []
  else if data.length < 4 then .error (.msg "invalid client hello extension")
  else
    match goIdx data 0, goIdx data 1, goIdx data 2, goIdx data 3 with
    | .ok t0, .ok t1, .ok l0, .ok l1 =>
      let extension := t0 * 256 + t1
      let extensionLength := l0 * 256 + l1
      match h4 : goDrop 4 data with
      | .error e => .error e
      | .ok rest0 =>
        if rest0.length < extensionLength then
          .error (.msg "invalid client hello extension length")
        else if extension = 0 then
          match goSlice rest0 0 extensionLength with
          | .error e => .error e
          | .ok extensionData =>
            if extensionData.length < 2 then .error (.msg "invalid extensionServerName")
            else
              match goIdx extensionData 0, goIdx extensionData 1 with
              | .ok s0, .ok s1 =>
                match goDrop 2 extensionData with
                | .error e => .error e
                | .ok names =>
                  if names.length ≠ s0 * 256 + s1 then
                    .error (.msg "invalid extensionServerName length")
                  else
                    match nameEntryLoop names with
                    | .ok [] =>
                      match h : goDrop extensionLength rest0 with
                      | .ok rest => extGuardLoop rest
                      | .error e => .error e
                    | .ok name => .ok name
                    | .error e => .error e
              | .error e, _ => .error e
              | _, .error e => .error e
        else
          match h : goDrop extensionLength rest0 with
          | .ok rest => extGuardLoop rest
          | .error e => .error e
    | .error e, _, _, _ => .error e
    | _, .error e, _, _ => .error e
    | _, _, .error e, _ => .error e
    | _, _, _, .error e => .error e
termination_by data.length
decreasing_by
  all_goals
    simp only [goDrop] at h4 h
    split at h4
    · cases h4
      split at h
      · cases h
        have hpos : 0 < data.length := List.length_pos.mpr h0
        simp only [List.length_drop]
        omega
      · cases h
    · cases h4

/-- Embeds parseHandshake from src/proxy/tls.go lines 91-135 (the guarded
revision): its data starts at the handshake type byte minus the five record
header bytes already consumed, so the session id length sits at offset 34,
and every skip is preceded by a length check. -/
def parseHandshake (data : List Byte) : Except PFail (List Byte) :=
  if data.length < 35 then .error (.msg "invalid client hello message")
  else
    match goIdx data 34 with
    | .error e => .error e
    | .ok sessionLength =>
      if 32 < sessionLength ∨ data.length < 35 + sessionLength then
        .error (.msg "invalid client hello sessionID")
      else
        match goDrop (35 + sessionLength) data with
        | .error e => .error e
        | .ok d1 =>
          if d1.length < 2 then .error (.msg "invalid client hello cipher suite")
          else
            match goIdx d1 0, goIdx d1 1 with
            | .ok a0, .ok a1 =>
              let cipherSuiteLength := a0 * 256 + a1
              if cipherSuiteLength % 2 ≠ 0 ∨ d1.length < 2 + cipherSuiteLength then
                .error (.msg "invalid client hello cipher suite length")
              else
                match goDrop (2 + cipherSuiteLength) d1 with
                | .error e => .error e
                | .ok d2 =>
                  if d2.length < 1 then
                    .error (.msg "invalid client hello compression methods")
                  else
                    match goIdx d2 0 with
                    | .error e => .error e
                    | .ok cm =>
                      if d2.length < 1 + cm then
                        .error (.msg "invalid client hello compression methods length")
                      else
                        match goDrop (1 + cm) d2 with
                        | .error e => .error e
                        | .ok d3 =>
                          if d3.length = 0 then .ok []
                          else if d3.length < 2 then
                            .error (.msg "invalid client hello extensions")
                          else
                            match goIdx d3 0, goIdx d3 1 with
                            | .ok x0, .ok x1 =>
                              match goDrop 2 d3 with
                              | .error e => .error e
                              | .ok d4 =>
                                if x0 * 256 + x1 ≠ d4.length then
                                  .error (.msg "invalid client hello extensions length")
                                else extGuardLoop d4
                            | .error e, _ => .error e
                            | _, .error e => .error e
            | .error e, _ => .error e
            | _, .error e => .error e

/-! ## CachedConn, src/unnamed/part_006 lines 42-104

The rewindable connection. The underlying net.Conn is embedded as the list
of bytes it will still deliver, with the standard deterministic refinement
of io.Reader: a Read of k bytes delivers min(k, available) bytes (the Go
code loops inside Prefetch until it has n bytes or hits end of stream, so
this refinement gives the same net effect). The field used is None while
recording (Go used == -1) and Some cursor while replaying. -/

/-- Error results of CachedConn.Prefetch. -/
inductive CErr where
  | usedConn    -- "proxy: prefetch on used connection"
  | bufferFull  -- "proxy: cache buffer already full"
  | eofShort    -- an underlying read error before n bytes arrived
  deriving DecidableEq, Repr

structure CConn where
  conn : List Byte
  buffer : List Byte
  used : Option Nat
  deriving DecidableEq, Repr

/-- Capacity of the pooled recording buffer, src/unnamed/part_007 second
half: make([]byte, 0, 4096). -/
def bufferCap : Nat := 4096

/-- NewCachedConn: recording state, empty pooled buffer. -/
def CConn.mkNew (stream : List Byte) : CConn := ⟨stream, [], none⟩

/-- CachedConn.Rewind (part_006 lines 56-61): enter replaying at cursor 0 if
still recording, otherwise leave the state untouched; always return the
buffer length. There is no error return. -/
def CConn.rewind (c : CConn) : CConn × Nat :=
  match c.used with
  | none => (⟨c.conn, c.buffer, some 0⟩, c.buffer.length)
  | some u => (⟨c.conn, c.buffer, some u⟩, c.buffer.length)

/-- CachedConn.Prefetch (part_006 lines 63-81): fail on a used connection,
fail when the n extra bytes would exceed the pooled capacity, otherwise
loop reads into the buffer tail until n bytes have arrived or the stream
ends, and return the newly appended tail. -/
def CConn.prefetch (n : Nat) (c : CConn) : Except CErr (List Byte) × CConn :=
  match c.used with
  | some u => (.error .usedConn, ⟨c.conn, c.buffer, some u⟩)
  | none =>
    if bufferCap < c.buffer.length + n then (.error .bufferFull, c)
    else
      let got := c.conn.take n
      let c' : CConn := ⟨c.conn.drop n, c.buffer ++ got, none⟩
      if n ≤ got.length then (.ok got, c') else (.error .eofShort, c')

/-- CachedConn.Read (part_006 lines 83-96) for a buffer of k bytes: while
recording, read from the stream and append the result to the buffer; while
replaying, copy from the buffer at the cursor when bytes remain there,
otherwise read the stream directly. -/
def CConn.readStep (k : Nat) (c : CConn) : List Byte × CConn :=
  match c.used with
  | none =>
    let got := c.conn.take k
    (got, ⟨c.conn.drop k, c.buffer ++ got, none⟩)
  | some u =>
    if u < c.buffer.length then
      let got := (c.buffer.drop u).take k
      (got, ⟨c.conn, c.buffer, some (u + got.length)⟩)
    else
      let got := c.conn.take k
      (got, ⟨c.conn.drop k, c.buffer, some u⟩)

/-- The byte stream delivered by a sequence of Read calls with the given
buffer sizes. -/
def CConn.delivered (c : CConn) (sizes : List Nat) : List Byte :=
  match sizes with
  | [] => []
  | k :: rest =>
    let s := c.readStep k
    s.1 ++ s.2.delivered rest

/-- The bytes a connection will deliver from now on: the unread part of the
replay buffer followed by the untouched stream. -/
def CConn.pending (c : CConn) : List Byte :=
  match c.used with
  | none => c.conn
  | some u => c.buffer.drop u ++ c.conn

/-- Errors surfaced by SNI sniffing: a connection error from Prefetch or a
parse outcome. -/
inductive SErr where
  | connErr (e : CErr)
  | parseFail (p : PFail)
  deriving DecidableEq, Repr

/-- Embeds sniffTLSHandshakeServerName, src/proxy/sniff.go lines 82-102:
prefetch the 5-byte record header, validate type and length, prefetch the
record body, and parse it. -/
def sniffServerName (c : CConn) : Except SErr (List Byte) × CConn :=
  match c.prefetch 5 with
  | (.error e, c1) => (.error (.connErr e), c1)
  | (.ok hdr, c1) =>
    if hdr.length ≠ 5 ∨ hdr.headD 0 ≠ 0x16 then
      (.error (.parseFail (.msg "proxy: invalid TLS record type")), c1)
    else
      let recordLength := hdr.getD 3 0 * 256 + hdr.getD 4 0
      if recordLength = 0 ∨ 16384 < recordLength then
        (.error (.parseFail (.msg "proxy: invalid TLS record length")), c1)
      else
        match c1.prefetch recordLength with
        | (.error e, c2) => (.error (.connErr e), c2)
        | (.ok data, c2) =>
          if data.length ≠ recordLength then
            (.error (.parseFail (.msg "proxy: unexpected TLS record read length")), c2)
          else
            match parseHandshakeRecord data with
            | .ok name => (.ok name, c2)
            | .error p => (.error (.parseFail p), c2)

/-! ## Structured ClientHello and its wire encoding

Used to quantify over well-formed ClientHello records in the round-trip
statements. The encoder follows the record layout documented at
src/proxy/sniff.go lines 62-74. -/

/-- One entry of an SNI server_name_list. -/
structure SNIEntry where
  ntype : Byte
  name : List Byte
  deriving DecidableEq, Repr

/-- A ClientHello extension: either a server_name extension carrying a list
of entries, or any other extension as raw payload. -/
inductive Ext where
  | sni (entries : List SNIEntry)
  | other (typ : Nat) (payload : List Byte)
  deriving DecidableEq, Repr

/-- A structured ClientHello: the two version bytes and the 32 random bytes
come as one 34-byte field because the parser skips them together. -/
structure ClientHello where
  versionRandom : List Byte
  sessionId : List Byte
  cipherSuites : List Byte
  compressionMethods : List Byte
  extensions : Option (List Ext)
  deriving DecidableEq, Repr

/-- Big-endian 16-bit length field. -/
def be16 (n : Nat) : List Byte := [n / 256, n % 256]

/-- Big-endian 24-bit handshake length field (the parser skips it). -/
def be24 (n : Nat) : List Byte := [n / 65536, n / 256 % 256, n % 256]

/-- Wire form of one server_name_list entry. -/
def encodeSNIEntry (e : SNIEntry) : List Byte :=
  e.ntype :: be16 e.name.length ++ e.name

/-- Wire form of one extension, type and length fields included. -/
def encodeExt : Ext → List Byte
  | .sni entries =>
    let entriesBytes := (entries.map encodeSNIEntry).flatten
    be16 0 ++ be16 (2 + entriesBytes.length) ++ be16 entriesBytes.length ++ entriesBytes
  | .other t payload => be16 t ++ be16 payload.length ++ payload

/-- Concatenated wire form of an extension list. -/
def extsBytes (exts : List Ext) : List Byte := (exts.map encodeExt).flatten

/-- Wire form of the optional extensions block: absent entirely, or a
16-bit length followed by the extension bytes. -/
def extPartBytes : Option (List Ext) → List Byte
  | none => []
  | some exts => be16 (extsBytes exts).length ++ extsBytes exts

/-- The handshake message: type, 24-bit length, version plus random,
session id, cipher suites, compression methods, optional extensions. -/
def chBody (ch : ClientHello) : List Byte :=
  let tailPart : List Byte :=
    ch.sessionId.length :: ch.sessionId
      ++ be16 ch.cipherSuites.length ++ ch.cipherSuites
      ++ ch.compressionMethods.length :: ch.compressionMethods
      ++ extPartBytes ch.extensions
  0x01 :: (be24 (34 + tailPart.length) ++ ch.versionRandom ++ tailPart)

/-- The full TLS record: handshake record type, protocol version 3.3,
16-bit record length, body. -/
def chRecord (ch : ClientHello) : List Byte :=
  0x16 :: 0x03 :: 0x03 :: be16 (chBody ch).length ++ chBody ch

/-- Well-formedness of an entry: a one-byte name type and a name length
that fits its 16-bit field. -/
def wfEntry (e : SNIEntry) : Bool :=
  decide (e.ntype < 256) && decide (e.name.length ≤ 65535)

/-- Well-formedness of an extension: fields fit, and a non-SNI extension
must not use the server_name type code. -/
def wfExt : Ext → Bool
  | .sni entries =>
    decide (((entries.map encodeSNIEntry).flatten).length + 2 ≤ 65535)
      && entries.all wfEntry
  | .other t payload =>
    decide (0 < t) && decide (t ≤ 65535) && decide (payload.length ≤ 65535)

/-- Well-formedness of a ClientHello: every variable-length field fits its
length field and the whole body fits one TLS record. -/
def wfCH (ch : ClientHello) : Bool :=
  decide (ch.versionRandom.length = 34)
    && decide (ch.sessionId.length ≤ 255)
    && decide (ch.cipherSuites.length ≤ 65535)
    && decide (ch.compressionMethods.length ≤ 255)
    && (match ch.extensions with
        | none => true
        | some exts => decide ((extsBytes exts).length ≤ 65535) && exts.all wfExt)
    && decide ((chBody ch).length ≤ 16384)

/-- The server name an SNI extension carries: its first entry with name
type zero and a nonempty name. -/
def firstSNIEntryName : List SNIEntry → Option (List Byte)
  | [] => none
  | e :: rest =>
    if e.ntype = 0 ∧ 0 < e.name.length then some e.name
    else firstSNIEntryName rest

/-- The server name carried by an extension list: scanning in order, the
first server_name extension that yields a name wins. -/
def sniOfExts : List Ext → List Byte
  | [] => []
  | .sni entries :: rest =>
    match firstSNIEntryName entries with
    | some n => n
    | none => sniOfExts rest
  | .other _ _ :: rest => sniOfExts rest

/-- The server name a structured ClientHello carries; empty when there are
no extensions or no server_name extension. -/
def expectedSNI (ch : ClientHello) : List Byte :=
  match ch.extensions with
  | none => []
  | some exts => sniOfExts exts

/-- A well-formed ClientHello whose record body is 4092 bytes: it fits a
TLS record (limit 16384) but, together with the 5 header bytes, exceeds the
4096-byte prefetch buffer. Its SNI is the single byte of the letter x. -/
def chBig : ClientHello :=
  { versionRandom := List.replicate 34 0
    sessionId := []
    cipherSuites := List.replicate 4037 0
    compressionMethods := [0]
    extensions := some [.sni [⟨0, [120]⟩]] }

/-- A small concrete well-formed ClientHello used to instantiate the
round-trip: one other-type session id byte, two cipher suite bytes, one
compression method, and a single server_name extension naming hi. Its
record is 64 bytes. -/
def chW : ClientHello :=
  { versionRandom := List.replicate 34 7
    sessionId := [9]
    cipherSuites := [0, 1]
    compressionMethods := [0]
    extensions := some [.sni [⟨0, [104, 105]⟩]] }

/-! ## LRU certificate caches

Two revisions exist. src/ca/cache.go measures occupancy as len(c.idx); the
older src/cert/ca.go SyncCache keeps an explicit len field that pushFront
increments and remove never decrements. The intrusive doubly-linked list
with sentinel root is embedded as the list of keys in most-recently-used
order, and the map index as an association list. -/

structure LruState (K V : Type) where
  cap : Nat
  order : List K        -- the linked list, front (MRU) to back (LRU)
  idx : List (K × V)    -- the map index
  lenCounter : Nat      -- the explicit len field of cert.SyncCache
  deriving Repr

variable {K V : Type} [DecidableEq K]

/-- Map lookup c.idx[key]. -/
def lookupIdx (k : K) (idx : List (K × V)) : Option V :=
  (idx.find? (fun p => p.1 = k)).map (fun p => p.2)

/-- moveToFront: a no-op when the element is already at the front,
otherwise unlink and relink at the front. -/
def moveToFront (k : K) (order : List K) : List K :=
  if order.head? = some k then order else k :: order.erase k

/-- NewCache(cap) / NewSyncCache(cap): empty list and index. -/
def LruState.empty (K V : Type) (cap : Nat) : LruState K V := ⟨cap, [], [], 0⟩

/-- Cache.Load (src/ca/cache.go lines 35-44, identical in cert.SyncCache):
a hit promotes the node to the front; a miss changes nothing. -/
def caLoad (k : K) (c : LruState K V) : Option V × LruState K V :=
  match lookupIdx k c.idx with
  | some v => (some v, { c with order := moveToFront k c.order })
  | none => (none, c)

/-- Cache.LoadOrStore (src/ca/cache.go lines 46-62): a hit promotes and
returns the resident value; a miss pushes a fresh node to the front and,
when the map has outgrown the capacity, evicts the back node. back()
returns nil only for an empty index, which cannot happen right after a
push, and remove deletes the node from both list and index. -/
def caLoadOrStore (k : K) (v : V) (c : LruState K V) :
    V × Bool × LruState K V :=
  match lookupIdx k c.idx with
  | some v0 => (v0, true, { c with order := moveToFront k c.order })
  | none =>
    let c1 : LruState K V :=
      { c with order := k :: c.order, idx := (k, v) :: c.idx }
    if c1.cap < c1.idx.length then
      match c1.order.getLast? with
      | some kb =>
        (v, false, { c1 with
          order := c1.order.dropLast,
          idx := c1.idx.eraseP (fun p => p.1 = kb) })
      | none => (v, false, c1)
    else (v, false, c1)

/-- SyncCache.LoadOrStore (src/cert/ca.go lines 154-170): as above, except
that occupancy is tracked in the explicit len field, which pushFront
increments (line 204) and remove leaves untouched (lines 209-216). -/
def syncLoadOrStore (k : K) (v : V) (c : LruState K V) :
    V × Bool × LruState K V :=
  match lookupIdx k c.idx with
  | some v0 => (v0, true, { c with order := moveToFront k c.order })
  | none =>
    let c1 : LruState K V :=
      { c with order := k :: c.order, idx := (k, v) :: c.idx,
               lenCounter := c.lenCounter + 1 }
    if c1.cap < c1.lenCounter then
      match c1.order.getLast? with
      | some kb =>
        (v, false, { c1 with
          order := c1.order.dropLast,
          idx := c1.idx.eraseP (fun p => p.1 = kb) })
      | none => (v, false, c1)
    else (v, false, c1)

/-- SyncCache.Len (src/cert/ca.go lines 172-174): the explicit counter. -/
def syncLen (c : LruState K V) : Nat := c.lenCounter

/-- Cache.Status length (src/ca/cache.go lines 64-69): len(c.idx). -/
def caLen (c : LruState K V) : Nat := c.idx.length

/-- One cache operation of a client session. -/
inductive CacheOp (K V : Type) where
  | load (k : K)
  | loadOrStore (k : K) (v : V)

/-- State after one operation against the src/ca/cache.go revision. -/
def caApply (c : LruState K V) : CacheOp K V → LruState K V
  | .load k => (caLoad k c).2
  | .loadOrStore k v => (caLoadOrStore k v c).2.2

/-- State after a whole operation sequence. -/
def caRun (c : LruState K V) (ops : List (CacheOp K V)) : LruState K V :=
  ops.foldl caApply c

/-- State after one operation against the cert.SyncCache revision. -/
def syncApply (c : LruState K V) : CacheOp K V → LruState K V
  | .load k => (caLoad k c).2
  | .loadOrStore k v => (syncLoadOrStore k v c).2.2

/-- State after a whole operation sequence on the SyncCache revision. -/
def syncRun (c : LruState K V) (ops : List (CacheOp K V)) : LruState K V :=
  ops.foldl syncApply c

/-- Structural soundness of a cache state: the linked list holds each key
once, list and index hold the same keys (every index entry points to a live
node and vice versa), and the index fits the capacity. -/
def LruWf (c : LruState K V) : Prop :=
  c.order.Nodup ∧ c.order.Perm (c.idx.map Prod.fst) ∧ c.idx.length ≤ c.cap

/-- 129 LoadOrStore inserts with pairwise distinct string keys, as a
client of a capacity-128 cache performs them. -/
def c3Inserts : List (CacheOp String Nat) :=
  (List.range 129).map (fun i => CacheOp.loadOrStore (Nat.repr i) i)

/-- Final state of the cert.SyncCache revision after the 129 inserts. -/
def c3FinalSync : LruState String Nat :=
  syncRun (LruState.empty String Nat 128) c3Inserts

/-- Final state of the src/ca/cache.go revision after the 129 inserts. -/
def c3FinalCa : LruState String Nat :=
  caRun (LruState.empty String Nat 128) c3Inserts

/-! ## GetCertificate, src/ca/ca.go lines 185-220

net.ParseIP is external: its verdict arrives as the ipLiteral flag. The
mint step generateLeaf draws random serial numbers and signs, so its
outcome is the mint parameter; everything else is the cache interaction
the claim is about. -/

/-- The cache key for a domain name: dns[0], the head of the wildcard
list (never empty, as proved below). -/
def certKeyFor (serverName : List Char) (s : Nat) (icann : Bool) : List Char :=
  (asteriskFor serverName s icann).headD serverName

def getCertificate (c : LruState (List Char) V) (serverName : List Char)
    (ipLiteral : Bool) (s : Nat) (icann : Bool) (mint : Except Unit V) :
    Except Unit V × LruState (List Char) V :=
  let key := if ipLiteral then serverName
             else certKeyFor serverName s icann
  match caLoad key c with
  | (some cer, c1) => (.ok cer, c1)
  | (none, c1) =>
    match mint with
    | .ok cer => (.ok cer, (caLoadOrStore key cer c1).2.2)
    | .error e => (.error e, c1)

/-! ## CA setup, src/ca/ca.go lines 37-87

The PEM file is embedded as the list of blocks pem.Decode yields, a flag
for trailing undecodable bytes, and oracle flags for the x509 parse
results and the verify checks. -/

inductive PemType where
  | certificate   -- block type CERTIFICATE
  | privateKey    -- any block type ending in PRIVATE KEY
  | otherBlock
  deriving DecidableEq, Repr

structure PemBlock where
  typ : PemType
  parses : Bool   -- whether the x509 parse of the block bytes succeeds
  deriving DecidableEq, Repr

inductive CAErr where
  | notExist      -- os.ReadFile: fs.ErrNotExist
  | readFail      -- os.ReadFile: any other error
  | pemParse      -- "ca: failed to parse pem block"
  | certParse     -- x509.ParseCertificate failure
  | keyParse      -- ca.parsePrivateKey failure
  | missingCert
  | missingKey
  | expired
  | keyMismatch
  deriving DecidableEq, Repr

/-- The pem.Decode loop of loadFrom (src/ca/ca.go lines 64-87): capture the
first CERTIFICATE block and the first PRIVATE KEY block, then require both
and run verify. The junkTail flag says whether undecodable bytes follow the
blocks; expired and keyMatches are the verify verdicts. -/
def loadLoop : List PemBlock → Bool → Bool → Bool → Bool → Bool →
    Except CAErr Unit
  | [], junkTail, expired, keyMatches, cerSet, keySet =>
    if junkTail then .error .pemParse
    else if ¬cerSet then .error .missingCert
    else if ¬keySet then .error .missingKey
    else if expired then .error .expired
    else if ¬keyMatches then .error .keyMismatch
    else .ok ()
  | b :: rest, junkTail, expired, keyMatches, cerSet, keySet =>
    if ¬cerSet ∧ b.typ = .certificate then
      if b.parses then loadLoop rest junkTail expired keyMatches true keySet
      else .error .certParse
    else if ¬keySet ∧ b.typ = .privateKey then
      if b.parses then loadLoop rest junkTail expired keyMatches cerSet true
      else .error .keyParse
    else loadLoop rest junkTail expired keyMatches cerSet keySet

/-- loadFrom including the os.ReadFile step. -/
def loadFromGo (fileReadable : Option Bool) (blocks : List PemBlock)
    (junkTail expired keyMatches : Bool) : Except CAErr Unit :=
  match fileReadable with
  | none => .error .notExist
  | some false => .error .readFail
  | some true => loadLoop blocks junkTail expired keyMatches false false

/-- How ca.Setup leaves the process. -/
inductive SetupOutcome where
  | fatalExit                      -- LOG.Fatal was called
  | running (caMaterialOk : Bool)  -- Setup returned; flag: did a load or a
                                   -- fresh generation leave usable CA material
  deriving DecidableEq, Repr

/-- Embeds Setup (src/ca/ca.go lines 37-55): run the load; only when the
error is fs.ErrNotExist generate a new root and persist it (fatal if either
step fails). Any other load failure skips the regeneration branch and Setup
falls through to cache creation with the package-level CA material never
assigned. -/
def caSetup (load : Except CAErr Unit) (genOk saveOk : Bool) : SetupOutcome :=
  match load with
  | .ok _ => .running true
  | .error e =>
    if e = .notExist then
      if genOk then
        if saveOk then .running true else .fatalExit
      else .fatalExit
    else .running false

/-! ## The upstream HTTP(S) CONNECT relay dialer

src/unnamed/part_009 lines 23-64 (httpProxy with precomputed address and
header) and src/unnamed/part_008 lines 22-57 (httpProxy recomputing from
the URL inside Dial). The relay URL is embedded as its host:port string,
its scheme, and optional credentials; the outbound CONNECT request is
captured as a record. -/

/-- Standard base64 alphabet. -/
def base64Table : List Char :=
  "ABCDEFGHIJKLMNOPQRSTUVWXYZabcdefghijklmnopqrstuvwxyz0123456789+/".toList

def b64Char (n : Nat) : Char := base64Table.getD n 'A'

/-- encoding/base64 StdEncoding.EncodeToString. -/
def base64Encode : List Nat → List Char
  | [] => []
  | [a] => [b64Char (a / 4), b64Char (a % 4 * 16), '=', '=']
  | [a, b] => [b64Char (a / 4), b64Char (a % 4 * 16 + b / 16), b64Char (b % 16 * 4), '=']
  | a :: b :: c :: rest =>
    b64Char (a / 4) :: b64Char (a % 4 * 16 + b / 16) ::
      b64Char (b % 16 * 4 + c / 64) :: b64Char (c % 64) :: base64Encode rest

/-- The bytes of an ASCII string. -/
def strBytes (s : String) : List Nat := s.toList.map Char.toNat

/-- "Basic " plus base64 of user:password, as both revisions build it. -/
def basicAuthValue (user password : String) : String :=
  "Basic " ++ String.mk (base64Encode (strBytes (user ++ ":" ++ password)))

/-- The Proxy-Authorization header: present exactly when the relay URL
carries user info. -/
def proxyAuthHeader (creds : Option (String × String)) : Option String :=
  creds.map (fun c => basicAuthValue c.1 c.2)

/-- What a Dial call sends before reading the relay response. -/
structure ConnectAttempt where
  dialAddr : String            -- the address the TCP (or TLS) dial goes to
  useTLS : Bool                -- tls.DialWithDialer vs plain Dial
  target : String              -- req.URL.Opaque, the CONNECT target
  host : String                -- req.Host
  auth : Option String         -- Proxy-Authorization value, if any
  deriving DecidableEq, Repr

/-- httpProxy.Dial of src/unnamed/part_009 lines 37-49: dial the relay
(TLS when its scheme is https) and send CONNECT for the requested addr. -/
def dialAttempt009 (relayHostPort : String) (relayScheme : String)
    (creds : Option (String × String)) (addr : String) : ConnectAttempt :=
  { dialAddr := relayHostPort
    useTLS := relayScheme = "https"
    target := addr
    host := addr
    auth := proxyAuthHeader creds }

/-- httpProxy.Dial of src/unnamed/part_008 lines 22-48: targetAddr is
computed from the relay URL itself and used both as the dial address and as
the CONNECT target and Host; the addr parameter is never consulted. -/
def dialAttempt008 (relayHostPort : String) (relayTLS : Bool)
    (creds : Option (String × String)) (addr : String) : ConnectAttempt :=
  let targetAddr := relayHostPort
  { dialAddr := targetAddr
    useTLS := relayTLS
    target := targetAddr
    host := targetAddr
    auth := proxyAuthHeader creds }

/-- After the response arrives (both revisions, part_009 lines 57-63):
only status 200 yields a connection. -/
def connectAccepted (statusCode : Nat) : Except String Unit :=
  if statusCode = 200 then .ok ()
  else .error "proxy: unexpected CONNECT status"

/-! ## The serve entry point and the CONNECT acknowledgement

src/unnamed/part_002 lines 345-383 (tracked-connection revision) and
src/proxy/server.go lines 60-93. The observable behaviour towards the
client before dispatch is captured as an event trace. -/

inductive Route where
  | statusEndpoint
  | tcpTunnel
  | tlsIntercept
  | httpForward
  deriving DecidableEq, Repr

/-- Classification of the 8 peeked bytes; none models a Peek error. -/
inductive PeekClass where
  | tlsHello
  | httpMethod
  | otherBytes
  deriving DecidableEq, Repr

inductive ServeEv where
  | readRequest
  | writeClient (s : String)
  | peekTunnel
  | dispatch (r : Route)
  deriving DecidableEq, Repr

/-- The CONNECT acknowledgement of src/unnamed/part_002 lines 367 and 510. -/
def connectAckCanonical : String :=
  "HTTP/1.1 200 Connection established\r\nContent-Length: 0\r\n\r\n"

/-- The CONNECT acknowledgement of src/proxy/server.go line 77 and
src/proxy/proxy.go line 88. -/
def connectAckNoLength : String :=
  "HTTP/1.1 200 Connection established\r\n\r\n"

/-- Route chosen from the peek outcome in serve (identical dispatch in both
revisions): a peek error or unknown bytes fall back to the TCP tunnel. -/
def routeOfPeek : Option PeekClass → Route
  | none => .tcpTunnel
  | some .tlsHello => .tlsIntercept
  | some .httpMethod => .httpForward
  | some .otherBytes => .tcpTunnel

/-- Client-visible trace of Server.serve, src/unnamed/part_002 lines
357-382: read the request; an empty URL host goes to the status handler;
CONNECT writes the acknowledgement, peeks 8 bytes and dispatches; anything
else is forwarded. -/
def serveTrace002 (urlHostEmpty isConnect : Bool) (peek : Option PeekClass) :
    List ServeEv :=
  .readRequest ::
    (if urlHostEmpty then [.dispatch .statusEndpoint]
     else if isConnect then
       [.writeClient connectAckCanonical, .peekTunnel, .dispatch (routeOfPeek peek)]
     else [.dispatch .httpForward])

/-- Client-visible trace of Server.serve, src/proxy/server.go lines 70-92:
same shape but no status branch and the short acknowledgement. -/
def serveTraceServerGo (isConnect : Bool) (peek : Option PeekClass) :
    List ServeEv :=
  .readRequest ::
    (if isConnect then
       [.writeClient connectAckNoLength, .peekTunnel, .dispatch (routeOfPeek peek)]
     else [.dispatch .httpForward])

/-- Predicate for acknowledgement events. -/
def isWriteClient : ServeEv → Bool
  | .writeClient _ => true
  | _ => false

/-! ## Shutdown, src/unnamed/part_002 lines 398-447 -/

/-- The poll interval cap, 500ms in nanoseconds. -/
def pollCapNs : Nat := 500000000

/-- The starting poll interval, 1ms in nanoseconds. -/
def pollStartNs : Nat := 1000000

/-- nextPollInterval (lines 413-420): the interval is the current base plus
the jitter rand.Intn(base/10) drew; then the base doubles, saturating at
500ms. Returns the interval and the next base. -/
def nextPollInterval (base jitter : Nat) : Nat × Nat :=
  (base + jitter, if pollCapNs < base * 2 then pollCapNs else base * 2)

/-- The base of the k-th poll interval (jitter does not feed back). -/
def pollBase : Nat → Nat
  | 0 => pollStartNs
  | k + 1 => (nextPollInterval (pollBase k) 0).2

/-- Result of the drain loop. -/
inductive DrainRes where
  | okDone           -- tracked set observed empty: Shutdown returns err
  | ctxDeadline      -- ctx.Done fired first: Shutdown returns ctx.Err()
  | stillDraining    -- observation sequence ended with the loop still going
  deriving DecidableEq, Repr

/-- The poll loop of Shutdown (lines 422-434) with notifyTrackedConns
(lines 437-447): each step sees the tracked-connection set and whether the
context is done at the following select; the loop first cancels every
tracked context (returning done when the set was empty), then waits on the
timer unless the context fires. The second component collects every cancel
invocation. -/
def drainLoop {α : Type} : List (List α × Bool) → DrainRes × List α
  | [] => (.stillDraining, [])
  | (conns, ctxDone) :: rest =>
    if conns.isEmpty then (.okDone, [])
    else if ctxDone then (.ctxDeadline, conns)
    else
      let r := drainLoop rest
      (r.1, conns ++ r.2)

/-- How the accept loop of ListenAndServe ends (lines 333-343): an Accept
failure reports ErrServerClosed exactly when the shutdown flag was set. -/
inductive ListenExit where
  | serverClosed
  | acceptErr
  deriving DecidableEq, Repr

def listenLoopExit (shutdownFlag : Bool) : ListenExit :=
  if shutdownFlag then .serverClosed else .acceptErr

/-- The sequential actions Shutdown performs before and around the drain
loop (lines 398-423): set the shutdown flag, close the listener, wait for
the listen loop, close the keylog writer, then poll. -/
inductive ShutdownAct where
  | setFlag
  | closeListener
  | awaitListenLoop
  | closeKeyLog
  | drainPoll
  deriving DecidableEq, Repr

def shutdownSequence : List ShutdownAct :=
  [.setFlag, .closeListener, .awaitListenLoop, .closeKeyLog, .drainPoll]

/-- When the domain contains a dot, the slice from the first dot is that dot
followed by the slice after it, so a star prefixed to domain[pos:] spells
star-dot followed by the tail. -/
theorem fromFirstDot_eq_dot_cons (d : List Char) (h : dotCount d ≠ 0) :
    fromFirstDot d = '.' :: afterFirstDot d := by
  induction d with
  | nil => simp [dotCount] at h
  | cons c rest ih =>
    by_cases hc : c = '.'
    · subst hc
      simp [fromFirstDot, afterFirstDot, dotIdx, List.findIdx_cons]
    · have hrest : dotCount rest ≠ 0 := by
        simp [dotCount, List.countP_cons, hc] at h
        simpa [dotCount] using h
      have := ih hrest
      simp only [fromFirstDot, afterFirstDot, dotIdx, List.findIdx_cons, hc,
        decide_eq_true_eq, if_neg hc] at this ⊢
      simpa [cond, hc] using this

/-- The code table agrees with the amended table everywhere, and never
returns an empty list, so dns[0] in GetCertificate (src/ca/ca.go line 193)
and getCertFromCache (src/proxy/proxy.go line 210) is well defined: the
cache key is always the first element of the result. -/
theorem asteriskFor_amended_agree (domain : List Char) (s : Nat) (icann : Bool) :
    asteriskFor domain s icann = wildcardBaseAmendedC1 domain s icann ∧
    asteriskFor domain s icann ≠ [] := by
  constructor
  · by_cases h0 : dotCount domain = 0
    · simp [asteriskFor, wildcardBaseAmendedC1, h0]
    · have hd := fromFirstDot_eq_dot_cons domain h0
      simp only [asteriskFor, wildcardBaseAmendedC1, h0, if_false, hd]
      split_ifs <;> simp [hd]
  · by_cases h0 : dotCount domain = 0
    · simp [asteriskFor, h0]
    · simp only [asteriskFor, h0, if_false]
      split_ifs <;> simp

/-- C1, amended. For every domain name the wildcard base follows the
public-suffix table with d dots in the name and s in the suffix: a name
with zero dots maps to itself; an ICANN suffix yields the name itself when
d = s, wildcard plus name when d - s = 1, wildcard-of-tail plus tail when
d - s = 2 and wildcard-of-tail alone otherwise; a non-ICANN suffix
promotes to wildcard plus name when d = 1 or d = s, yields
wildcard-of-tail plus tail when d - s = 1 and wildcard-of-tail alone
otherwise. The result is never empty, so the cache key is always its first
element. -/
theorem C1_wildcard_table (domain : List Char) (s : Nat) (icann : Bool) :
    asteriskFor domain s icann = wildcardBaseAmendedC1 domain s icann ∧
    asteriskFor domain s icann ≠ [] :=
  asteriskFor_amended_agree domain s icann

/-- C1, counterexample to the claim as stated: for b.a.appspot.com under
the non-ICANN suffix appspot.com (d = 3, s = 1) the code returns only the
wildcard of the tail, while the table the claim words (same rows as ICANN
plus the d = 1 or d = s promotion) yields wildcard-of-tail plus tail. -/
theorem C1_wildcard_table_counterexample :
    asteriskFor ("b.a.appspot.com".toList) 1 false = ["*.a.appspot.com".toList] ∧
    wildcardBaseClaimC1 ("b.a.appspot.com".toList) 1 false =
      ["*.a.appspot.com".toList, "a.appspot.com".toList] ∧
    asteriskFor ("b.a.appspot.com".toList) 1 false ≠
      wildcardBaseClaimC1 ("b.a.appspot.com".toList) 1 false := by
  refine ⟨by decide, by decide, by decide⟩

/-- C4. Initialisation attempts the load and regenerates the root exactly
for a file-not-found failure; but for every other load failure (here: a
file that exists yet yields no certificate block) Setup neither calls
Fatal nor recovers: it returns with unusable CA material and the server
starts anyway, against the claim that startup fails. -/
theorem C4_setup_not_fatal_on_invalid_material :
    loadFromGo (some true) [] false false true = .error .missingCert ∧
    caSetup (loadFromGo (some true) [] false false true) true true = .running false ∧
    caSetup (.error .notExist) true true = .running true ∧
    caSetup (.error .notExist) false true = .fatalExit ∧
    caSetup (.error .notExist) true false = .fatalExit ∧
    caSetup (.ok ()) true true = .running true ∧
    (∀ e : CAErr, e ≠ .notExist → ∀ g s : Bool, caSetup (.error e) g s = .running false) := by
  refine ⟨rfl, rfl, rfl, rfl, rfl, rfl, ?_⟩
  intro e he g s
  cases e <;> simp_all [caSetup]

/-- C4, witness: an unparsable CA file leaves the process running without
CA material instead of failing startup. -/
theorem C4_setup_not_fatal_witness :
    caSetup (.error .pemParse) true true = .running false :=
  C4_setup_not_fatal_on_invalid_material.2.2.2.2.2.2 .pemParse (by decide) true true

/-- C6, amended. In the tracked-connection revision every accepted CONNECT
writes exactly one acknowledgement, byte-equal to the canonical string with
the Content-Length line, before the first peek at tunneled bytes; the
src/proxy/server.go revision also writes exactly one acknowledgement before
peeking, but its bytes omit the Content-Length line; non-CONNECT requests
write no acknowledgement. -/
theorem C6_connect_ack (peek : Option PeekClass) :
    serveTrace002 false true peek =
      [.readRequest, .writeClient connectAckCanonical, .peekTunnel,
        .dispatch (routeOfPeek peek)] ∧
    (serveTrace002 false true peek).filter isWriteClient =
      [.writeClient connectAckCanonical] ∧
    (serveTraceServerGo true peek).filter isWriteClient =
      [.writeClient connectAckNoLength] ∧
    (serveTrace002 false false peek).filter isWriteClient = [] :=
  ⟨rfl, rfl, rfl, rfl⟩

/-- C6, counterexample to the claim as stated: the CONNECT acknowledgement
of the src/proxy/server.go revision is not byte-equal to the canonical
string, because it lacks the Content-Length line. -/
theorem C6_connect_ack_counterexample :
    (serveTraceServerGo true (some .tlsHello)).filter isWriteClient =
      [.writeClient connectAckNoLength] ∧
    connectAckNoLength ≠ connectAckCanonical :=
  ⟨rfl, by decide⟩

/-- C7. In the part_008 revision the Dial of the HTTP(S) CONNECT relay
ignores its addr argument: the CONNECT target and Host are the relay
address itself. The part_009 revision behaves as the claim states: dial
the relay, TLS exactly for the https scheme, CONNECT for addr with Host
addr and a Basic Proxy-Authorization header from the URL credentials, and
only response status 200 yields a connection. -/
theorem C7_relay_connect_request :
    (dialAttempt008 "relay:3128" false (some ("user", "pw")) "example.test:443").target
      = "relay:3128" ∧
    (dialAttempt008 "relay:3128" false (some ("user", "pw")) "example.test:443").host
      = "relay:3128" ∧
    ("relay:3128" : String) ≠ "example.test:443" ∧
    dialAttempt009 "relay:3128" "http" (some ("user", "pw")) "example.test:443" =
      { dialAddr := "relay:3128", useTLS := false, target := "example.test:443",
        host := "example.test:443", auth := some "Basic dXNlcjpwdw==" } ∧
    dialAttempt009 "relay:3128" "https" none "example.test:443" =
      { dialAddr := "relay:3128", useTLS := true, target := "example.test:443",
        host := "example.test:443", auth := none } ∧
    connectAccepted 200 = .ok () ∧
    (∀ st : Nat, st ≠ 200 →
      connectAccepted st = .error "proxy: unexpected CONNECT status") := by
  refine ⟨rfl, rfl, by decide, by decide, by decide, rfl, ?_⟩
  intro st h
  simp [connectAccepted, h]

/-- C7, witness: a relay answering 403 yields an error, not a connection. -/
theorem C7_relay_connect_request_witness :
    connectAccepted 403 = .error "proxy: unexpected CONNECT status" :=
  C7_relay_connect_request.2.2.2.2.2.2 403 (by decide)

/-- C8, amended. Rewind moves a recording connection to the replaying
state; on a connection already replaying a second Rewind is a silent no-op
(same state, normal return of the buffer length, no rejection), and any
Prefetch fails with the already-replaying error, leaving the state
unchanged. -/
theorem C8_rewind_one_shot (c : CConn) :
    (c.used = none →
      (c.rewind).1.used = some 0 ∧ (c.rewind).2 = c.buffer.length) ∧
    (∀ u, c.used = some u → c.rewind = (c, c.buffer.length)) ∧
    (∀ u n, c.used = some u →
      (c.prefetch n).1 = Except.error CErr.usedConn ∧ (c.prefetch n).2 = c) := by
  obtain ⟨conn, buffer, used⟩ := c
  refine ⟨?_, ?_, ?_⟩
  · intro h
    simp only at h
    subst h
    exact ⟨rfl, rfl⟩
  · intro u h
    simp only at h
    subst h
    rfl
  · intro u n h
    simp only at h
    subst h
    exact ⟨rfl, rfl⟩

/-- C8, witness: Prefetch on a replaying connection is rejected. -/
theorem C8_rewind_one_shot_witness :
    ((CConn.mk [1] [2] (some 0)).prefetch 3).1 = Except.error CErr.usedConn :=
  ((C8_rewind_one_shot ⟨[1], [2], some 0⟩).2.2 0 3 rfl).1

/-- C8, counterexample to the claim as stated: after a Prefetch and a
first Rewind, a second Rewind returns normally with the same buffer length
and leaves the state untouched; nothing rejects it. -/
theorem C8_rewind_counterexample :
    ((((CConn.mkNew [22, 3, 1]).prefetch 2).2.rewind).1.rewind =
        ((((CConn.mkNew [22, 3, 1]).prefetch 2).2.rewind).1, 2)) ∧
    (((CConn.mkNew [22, 3, 1]).prefetch 2).2.rewind).1.used = some 0 ∧
    ((((CConn.mkNew [22, 3, 1]).prefetch 2).2.rewind).1.prefetch 1).1 =
      Except.error CErr.usedConn := by decide

/-- Polls that see a nonempty tracked set and no expired context cancel
every tracked connection and keep looping. -/
theorem drainLoop_busy_append {α : Type} (pre : List (List α × Bool))
    (t : List (List α × Bool)) (hpre : ∀ s ∈ pre, s.1 ≠ [] ∧ s.2 = false) :
    drainLoop (pre ++ t) =
      ((drainLoop t).1, (pre.map Prod.fst).flatten ++ (drainLoop t).2) := by
  induction pre with
  | nil => simp
  | cons s pre ih =>
    obtain ⟨conns, d⟩ := s
    have h1 := hpre (conns, d) (List.mem_cons_self _ _)
    obtain ⟨hne, hd⟩ := h1
    subst hd
    have ih2 := ih (fun s hs => hpre s (List.mem_cons_of_mem _ hs))
    simp only [List.cons_append, drainLoop, List.isEmpty_iff, hne, if_false,
      ih2, List.map_cons, List.flatten_cons, List.append_assoc]
    simp [show pre.append t = pre ++ t from rfl, ih2]

/-- The polling base sequence in closed form: it starts at 1ms, doubles,
and saturates at the 500ms cap. -/
theorem pollBase_closed (k : Nat) :
    pollBase k = min (2 ^ k * pollStartNs) pollCapNs := by
  induction k with
  | zero =>
    simp [pollBase, pollStartNs, pollCapNs, Nat.min_def]
  | succ k ih =>
    have hx : 2 ^ (k + 1) * pollStartNs = 2 ^ k * pollStartNs * 2 := by ring
    simp only [pollBase, nextPollInterval, ih, hx, Nat.min_def, pollCapNs]
    split_ifs <;> omega

/-- C9. Shutdown sets the shutdown flag, then closes the listener, awaits
the listen loop (which reports ErrServerClosed exactly when the flag is
set), closes the keylog writer, and then polls: the poll base starts at
1ms, doubles each tick and is capped at 500ms; each interval is its base
plus a nonnegative jitter below a tenth of the base, hence within the
ten-percent envelope; every poll cancels every tracked connection; the
loop returns normally at the first poll that sees the set empty and
returns the context error when the deadline fires first. -/
theorem C9_shutdown_drain :
    shutdownSequence =
      [ShutdownAct.setFlag, .closeListener, .awaitListenLoop, .closeKeyLog,
        .drainPoll] ∧
    listenLoopExit true = .serverClosed ∧
    listenLoopExit false = .acceptErr ∧
    pollBase 0 = 1000000 ∧
    (∀ k, pollBase k = min (2 ^ k * 1000000) 500000000) ∧
    (∀ k, pollBase k ≤ 500000000) ∧
    (∀ base jitter, jitter < base / 10 →
      base ≤ (nextPollInterval base jitter).1 ∧
      10 * (nextPollInterval base jitter).1 ≤ 11 * base) ∧
    (∀ (pre : List (List Nat × Bool)) (d : Bool) (rest : List (List Nat × Bool)),
      (∀ s ∈ pre, s.1 ≠ [] ∧ s.2 = false) →
      drainLoop (pre ++ (([], d) :: rest)) =
        (.okDone, (pre.map Prod.fst).flatten)) ∧
    (∀ (pre : List (List Nat × Bool)) (conns : List Nat)
        (rest : List (List Nat × Bool)),
      (∀ s ∈ pre, s.1 ≠ [] ∧ s.2 = false) → conns ≠ [] →
      drainLoop (pre ++ ((conns, true) :: rest)) =
        (.ctxDeadline, (pre.map Prod.fst).flatten ++ conns)) ∧
    (∀ steps : List (List Nat × Bool),
      (∀ s ∈ steps, s.1 ≠ [] ∧ s.2 = false) →
      drainLoop steps = (.stillDraining, (steps.map Prod.fst).flatten)) := by
  refine ⟨rfl, rfl, rfl, rfl, ?_, ?_, ?_, ?_, ?_, ?_⟩
  · intro k
    simpa [pollStartNs, pollCapNs] using pollBase_closed k
  · intro k
    rw [pollBase_closed k]
    simp [pollCapNs]
  · intro base jitter h
    simp only [nextPollInterval]
    omega
  · intro pre d rest hpre
    rw [drainLoop_busy_append pre _ hpre]
    simp [drainLoop]
  · intro pre conns rest hpre hne
    rw [drainLoop_busy_append pre _ hpre]
    simp [drainLoop, List.isEmpty_iff, hne]
  · intro steps hsteps
    have := drainLoop_busy_append steps [] hsteps
    simpa [drainLoop] using this

/-- C9, witness: base 8ms at the fourth tick, the 1ms-based interval with
maximal jitter stays within ten percent, and a drain that sees one busy
poll then an empty set returns normally after cancelling the tracked
connections. -/
theorem C9_shutdown_drain_witness :
    pollBase 3 = 8000000 ∧
    1000000 ≤ (nextPollInterval 1000000 99999).1 ∧
    10 * (nextPollInterval 1000000 99999).1 ≤ 11 * 1000000 ∧
    drainLoop ([([1, 2], false)] ++ ((([] : List Nat), false) :: [])) =
      (.okDone, [1, 2]) := by
  obtain ⟨hseq, hlt, hlf, hb0, hclosed, hle, hjit, hok, hctx, hbusy⟩ :=
    C9_shutdown_drain
  refine ⟨?_, ?_, ?_, ?_⟩
  · rw [hclosed 3]
    decide
  · exact (hjit 1000000 99999 (by decide)).1
  · exact (hjit 1000000 99999 (by decide)).2
  · exact hok [([1, 2], false)] false [] (by decide)

/-- C3. After 129 LoadOrStore inserts with distinct keys into an empty
capacity-128 cache, both revisions hold 128 live entries, have evicted the
least-recently-used key, and keep index and list in step; but the explicit
len field of the cert.SyncCache revision reads 129, because remove never
decrements it, so the size it reports exceeds the capacity bound the claim
states. -/
theorem C3_lru_bound_and_len_counter :
    syncLen c3FinalSync = 129 ∧
    caLen c3FinalSync = 128 ∧
    lookupIdx (Nat.repr 0) c3FinalSync.idx = none ∧
    c3FinalSync.order = c3FinalSync.idx.map Prod.fst ∧
    caLen c3FinalCa = 128 ∧
    lookupIdx (Nat.repr 0) c3FinalCa.idx = none ∧
    c3FinalCa.order = c3FinalCa.idx.map Prod.fst := by
  refine ⟨by decide, by decide, by decide, by decide, by decide, by decide, by decide⟩

section CacheLemmas

variable {K V : Type} [DecidableEq K]

/-- A missing key means no index pair carries it. -/
theorem lookupIdx_none_iff (k : K) (idx : List (K × V)) :
    lookupIdx k idx = none ↔ ∀ p ∈ idx, p.1 ≠ k := by
  simp [lookupIdx, List.find?_eq_none]

/-- Lookup finds a pair just pushed to the front. -/
theorem lookupIdx_cons_self (k : K) (v : V) (idx : List (K × V)) :
    lookupIdx k ((k, v) :: idx) = some v := by
  simp [lookupIdx, List.find?_cons_of_pos]

/-- A Load miss leaves the state untouched. -/
theorem caLoad_miss (k : K) (c : LruState K V)
    (h : lookupIdx k c.idx = none) : caLoad k c = (none, c) := by
  simp [caLoad, h]

/-- After a LoadOrStore miss the inserted pair is found, even when the
insertion evicted the back node: the evicted key is the last of the order
list, which under the list-index agreement differs from the fresh key. -/
theorem caLoadOrStore_lookup_self (k : K) (v : V) (c : LruState K V)
    (hperm : c.order.Perm (c.idx.map Prod.fst)) (hcap : 0 < c.cap)
    (hmiss : lookupIdx k c.idx = none) :
    lookupIdx k ((caLoadOrStore k v c).2.2).idx = some v := by
  have hknotidx : ∀ p ∈ c.idx, p.1 ≠ k := (lookupIdx_none_iff k c.idx).mp hmiss
  have hknotord : k ∉ c.order := by
    intro hmem
    have : k ∈ c.idx.map Prod.fst := hperm.subset hmem
    obtain ⟨p, hp, hpk⟩ := List.mem_map.mp this
    exact hknotidx p hp hpk
  simp only [caLoadOrStore, hmiss]
  split_ifs with hevict
  · cases hord : c.order with
    | nil =>
      have hidxnil : c.idx = [] := by
        have hp := hperm
        rw [hord] at hp
        exact List.map_eq_nil_iff.mp hp.nil_eq.symm
      rw [hidxnil] at hevict
      simp at hevict
      omega
    | cons x xs =>
      have hne : x :: xs ≠ ([] : List K) := by simp
      rw [hord] at hknotord
      cases hl : (k :: x :: xs).getLast? with
      | none => simp [List.getLast?_eq_none_iff] at hl
      | some kb =>
        have hkb : kb = (x :: xs).getLast hne := by
          rw [List.getLast?_cons_cons, List.getLast?_eq_getLast_of_ne_nil hne] at hl
          exact (Option.some_inj.mp hl).symm
        have hkbne : ¬((k, v).1 = kb) := by
          intro hEq
          apply hknotord
          rw [hkb] at hEq
          simp only at hEq
          rw [hEq]
          exact List.getLast_mem hne
        have hkne : ¬k = kb := by simpa using hkbne
        simp only [List.eraseP_cons, hkne, decide_False, cond_false]
        exact lookupIdx_cons_self k v _
  · exact lookupIdx_cons_self k v c.idx

end CacheLemmas

/-- C10. When minting the leaf fails, GetCertificate returns the error and
leaves the cache exactly as it was, with the computed key still missing; a
new entry appears under the key only after a successful mint. -/
theorem C10_failed_mint_leaves_cache (c : LruState (List Char) Nat)
    (name : List Char) (s : Nat) (icann : Bool)
    (hperm : c.order.Perm (c.idx.map Prod.fst)) (hcap : 0 < c.cap)
    (hmiss : lookupIdx (certKeyFor name s icann) c.idx = none) :
    getCertificate c name false s icann (.error ()) = (.error (), c) ∧
    lookupIdx (certKeyFor name s icann)
      (getCertificate c name false s icann (.error ())).2.idx = none ∧
    (∀ cer : Nat,
      (getCertificate c name false s icann (.ok cer)).1 = .ok cer ∧
      lookupIdx (certKeyFor name s icann)
        (getCertificate c name false s icann (.ok cer)).2.idx = some cer) := by
  have hload := caLoad_miss (certKeyFor name s icann) c hmiss
  refine ⟨?_, ?_, ?_⟩
  · simp only [getCertificate, Bool.false_eq_true, if_false, hload]
  · simp only [getCertificate, Bool.false_eq_true, if_false, hload]
    exact hmiss
  · intro cer
    constructor
    · simp only [getCertificate, Bool.false_eq_true, if_false, hload]
    · simp only [getCertificate, Bool.false_eq_true, if_false, hload]
      exact caLoadOrStore_lookup_self _ cer c hperm hcap hmiss

/-- C10, witness: on the empty cache with the key of example.com missing,
a failed mint changes nothing and a successful one stores the leaf. -/
theorem C10_failed_mint_leaves_cache_witness :
    getCertificate (LruState.empty (List Char) Nat 128) ("example.com".toList)
      false 0 true (.error ()) = (.error (), LruState.empty (List Char) Nat 128) ∧
    lookupIdx (("*.example.com").toList)
      (getCertificate (LruState.empty (List Char) Nat 128) ("example.com".toList)
        false 0 true (.ok 7)).2.idx = some 7 := by
  have h := C10_failed_mint_leaves_cache (LruState.empty (List Char) Nat 128)
    ("example.com".toList) 0 true (by decide) (by decide) (by decide)
  refine ⟨h.1, ?_⟩
  have h2 := (h.2.2 7).2
  have hkey : certKeyFor ("example.com".toList) 0 true = ("*.example.com").toList := by
    decide
  rw [hkey] at h2
  exact h2

/-- An index expression only fails beyond the length. -/
theorem goIdx_error {xs : List Byte} {i : Nat} {e : PFail}
    (h : goIdx xs i = .error e) : xs.length ≤ i := by
  by_contra hlt
  push_neg at hlt
  rw [goIdx, List.getElem?_eq_getElem hlt] at h
  cases h

/-- A drop expression only fails beyond the length. -/
theorem goDrop_error {n : Nat} {xs : List Byte} {e : PFail}
    (h : goDrop n xs = .error e) : xs.length < n := by
  by_contra hle
  push_neg at hle
  rw [goDrop, if_pos hle] at h
  cases h

/-- A successful drop is a list drop within bounds. -/
theorem goDrop_ok {n : Nat} {xs ys : List Byte}
    (h : goDrop n xs = .ok ys) : ys = xs.drop n ∧ n ≤ xs.length := by
  by_cases hle : n ≤ xs.length
  · rw [goDrop, if_pos hle] at h
    cases h
    exact ⟨rfl, hle⟩
  · rw [goDrop, if_neg hle] at h
    cases h

/-- A range slice only fails when its bounds are inconsistent with the
length. -/
theorem goSlice_error {xs : List Byte} {lo hi : Nat} {e : PFail}
    (h : goSlice xs lo hi = .error e) : ¬(lo ≤ hi ∧ hi ≤ xs.length) := by
  intro hb
  rw [goSlice, if_pos hb] at h
  cases h

/-- An in-range index expression yields its element (default-read form, so
the rewrite introduces no embedded bound proofs). -/
theorem goIdx_ok_of_lt {xs : List Byte} {i : Nat} (h : i < xs.length) :
    goIdx xs i = .ok (xs.getD i 0) := by
  rw [goIdx, List.getElem?_eq_getElem h]
  simp [List.getD_eq_getElem?_getD, List.getElem?_eq_getElem h]

/-- An in-range drop expression yields the dropped list. -/
theorem goDrop_ok_of_le {n : Nat} {xs : List Byte} (h : n ≤ xs.length) :
    goDrop n xs = .ok (xs.drop n) := by
  rw [goDrop, if_pos h]

/-- An in-range slice expression yields the slice. -/
theorem goSlice_ok_of {xs : List Byte} {lo hi : Nat} (h1 : lo ≤ hi)
    (h2 : hi ≤ xs.length) : goSlice xs lo hi = .ok ((xs.take hi).drop lo) := by
  rw [goSlice, if_pos ⟨h1, h2⟩]

/-- The guarded ServerName loop of src/proxy/tls.go never goes out of
range: every slice is protected by a preceding length check. -/
theorem nameEntryLoop_no_panic :
    ∀ (n : Nat) (extensionData : List Byte), extensionData.length ≤ n →
      nameEntryLoop extensionData ≠ .error .goPanic := by
  intro n
  induction n with
  | zero =>
    intro data h
    have : data = [] := List.eq_nil_of_length_eq_zero (Nat.le_zero.mp h)
    subst this
    rw [nameEntryLoop]
    simp
  | succ n ih =>
    intro data hlen
    rw [nameEntryLoop]
    split
    · simp
    rename_i h0
    split
    · simp
    rename_i hge3
    have hpos : 0 < data.length := List.length_pos.mpr h0
    rw [goIdx_ok_of_lt (show 0 < data.length by omega),
      goIdx_ok_of_lt (show 1 < data.length by omega),
      goIdx_ok_of_lt (show 2 < data.length by omega),
      goDrop_ok_of_le (show 3 ≤ data.length by omega)]
    simp only
    split
    · simp
    rename_i hfits
    split
    · rename_i hsni
      rw [goSlice_ok_of (Nat.zero_le _) (by omega)]
      simp
    · rename_i hnotsni
      rw [goDrop_ok_of_le (by omega)]
      simp only
      apply ih
      simp only [List.length_drop]
      omega

/-- The guarded extensions loop of src/proxy/tls.go never goes out of
range. -/
theorem extGuardLoop_no_panic :
    ∀ (n : Nat) (data : List Byte), data.length ≤ n →
      extGuardLoop data ≠ .error .goPanic := by
  intro n
  induction n with
  | zero =>
    intro data h
    have : data = [] := List.eq_nil_of_length_eq_zero (Nat.le_zero.mp h)
    subst this
    rw [extGuardLoop]
    simp
  | succ n ih =>
    intro data hlen
    rw [extGuardLoop]
    split
    · simp
    rename_i h0
    split
    · simp
    rename_i hge4
    rw [goIdx_ok_of_lt (show 0 < data.length by omega),
      goIdx_ok_of_lt (show 1 < data.length by omega),
      goIdx_ok_of_lt (show 2 < data.length by omega),
      goIdx_ok_of_lt (show 3 < data.length by omega),
      goDrop_ok_of_le (show 4 ≤ data.length by omega)]
    simp only
    split
    · simp
    rename_i hextfit
    split
    · rw [goSlice_ok_of (Nat.zero_le _) (by omega)]
      simp only
      split
      · simp
      rename_i h2len
      rw [goIdx_ok_of_lt (by omega), goIdx_ok_of_lt (by omega),
        goDrop_ok_of_le (by omega)]
      simp only
      split
      · simp
      rename_i hnameslen
      cases hinner : nameEntryLoop
          ((((data.drop 4).take (data.getD 2 0 * 256 + data.getD 3 0)).drop 0).drop 2) with
      | error e =>
        have hne := nameEntryLoop_no_panic _ _
          (le_refl ((((data.drop 4).take (data.getD 2 0 * 256 +
            data.getD 3 0)).drop 0).drop 2).length)
        rw [hinner] at hne
        simpa using hne
      | ok name =>
        cases name with
        | nil =>
          rw [goDrop_ok_of_le (by omega)]
          simp only
          apply ih
          simp only [List.length_drop]
          omega
        | cons a rest' => simp
    · rw [goDrop_ok_of_le (by omega)]
      simp only
      apply ih
      simp only [List.length_drop]
      omega

set_option maxHeartbeats 2000000 in
/-- parseHandshake of src/proxy/tls.go lines 91-181 is total: every length
inconsistency is caught by a guard and reported as an error string; no
input reaches an out-of-range access. -/
theorem parseHandshake_no_panic (data : List Byte) :
    parseHandshake data ≠ .error .goPanic := by
  unfold parseHandshake
  split
  · simp
  rename_i h35
  rw [goIdx_ok_of_lt (show 34 < data.length by omega)]
  simp only
  split
  · simp
  rename_i hsess
  rw [goDrop_ok_of_le (by omega)]
  simp only
  split
  · simp
  rename_i hcs2
  rw [goIdx_ok_of_lt (by omega), goIdx_ok_of_lt (by omega)]
  simp only
  split
  · simp
  rename_i hcsfit
  rw [goDrop_ok_of_le (by omega)]
  simp only
  split
  · simp
  rename_i hcm1
  rw [goIdx_ok_of_lt (by omega)]
  simp only
  split
  · simp
  rename_i hcmfit
  rw [goDrop_ok_of_le (by omega)]
  simp only
  split
  · simp
  rename_i hd3zero
  split
  · simp
  rename_i hd3two
  rw [goIdx_ok_of_lt (by omega), goIdx_ok_of_lt (by omega),
    goDrop_ok_of_le (by omega)]
  simp only
  split
  · simp
  exact extGuardLoop_no_panic _ _ (le_refl _)

/-- C5. The guarded parser parseHandshake (src/proxy/tls.go) is total:
no input reaches an out-of-range access, every inconsistency yields an
error return. The rewritten parser parseHandshakeRecord (src/proxy/sniff.go)
is not: the valid ClientHello record of declared length 1 and body 0x01
drives data[38:] past the end of the record, a runtime panic rather than an
error return. -/
theorem C5_parse_total_vs_panic :
    parseHandshakeRecord [0x01] = .error .goPanic ∧
    (∀ data : List Byte, parseHandshake data ≠ .error .goPanic) :=
  ⟨by decide, parseHandshake_no_panic⟩

/-- Dropping exactly the prefix of a concatenation. -/
theorem goDrop_append (n : Nat) (xs ys : List Byte) (h : xs.length = n) :
    goDrop n (xs ++ ys) = .ok ys := by
  subst h
  rw [goDrop_ok_of_le (by simp), List.drop_left]

/-- Slicing out exactly the middle of a three-part concatenation. -/
theorem goSlice_append (lo hi : Nat) (a b c : List Byte)
    (h1 : a.length = lo) (h2 : lo + b.length = hi) :
    goSlice (a ++ b ++ c) lo hi = .ok b := by
  subst h1
  subst h2
  rw [goSlice_ok_of (by omega) (by simp)]
  have htake : (a ++ b ++ c).take (a.length + b.length) = a ++ b := by
    have hl : (a ++ b).length = a.length + b.length := by simp
    rw [List.append_assoc, ← List.take_left' hl, List.append_assoc]
  rw [htake, List.drop_left]

/-- The wire bytes of an entry list parse back, by the unguarded inner
loop of sniff.go, to exactly the first type-zero nonempty name. -/
theorem sniEntryLoop_entries :
    ∀ entries : List SNIEntry, (∀ e ∈ entries, wfEntry e = true) →
      sniEntryLoop ((entries.map encodeSNIEntry).flatten) =
        .ok (firstSNIEntryName entries) := by
  intro entries
  induction entries with
  | nil =>
    intro _
    rw [sniEntryLoop]
    simp [firstSNIEntryName]
  | cons en rest ih =>
    intro hwf
    have hrest := fun x hx => hwf x (List.mem_cons_of_mem _ hx)
    have hbytes : ((en :: rest).map encodeSNIEntry).flatten =
        en.ntype :: en.name.length / 256 :: en.name.length % 256 ::
          (en.name ++ (rest.map encodeSNIEntry).flatten) := by
      simp [encodeSNIEntry, be16]
    rw [sniEntryLoop, dif_neg (by rw [hbytes]; simp)]
    rw [hbytes]
    simp only [goIdx, List.getElem?_cons_zero, List.getElem?_cons_succ]
    have harith : en.name.length / 256 * 256 + en.name.length % 256 =
        en.name.length := by omega
    rw [harith]
    by_cases hcond : en.ntype = 0 ∧ 0 < en.name.length
    · rw [if_pos hcond]
      have hslice : goSlice
          (en.ntype :: en.name.length / 256 :: en.name.length % 256 ::
            (en.name ++ (rest.map encodeSNIEntry).flatten)) 3
          (3 + en.name.length) = .ok en.name := by
        have h := goSlice_append 3 (3 + en.name.length)
          [en.ntype, en.name.length / 256, en.name.length % 256] en.name
          ((rest.map encodeSNIEntry).flatten) (by simp) rfl
        simpa using h
      simp only [hslice]
      simp [firstSNIEntryName, hcond]
    · rw [if_neg hcond]
      have hdrop : goDrop (3 + en.name.length)
          (en.ntype :: en.name.length / 256 :: en.name.length % 256 ::
            (en.name ++ (rest.map encodeSNIEntry).flatten)) =
          .ok ((rest.map encodeSNIEntry).flatten) := by
        have h := goDrop_append (3 + en.name.length)
          ([en.ntype, en.name.length / 256, en.name.length % 256] ++ en.name)
          ((rest.map encodeSNIEntry).flatten) (by simp; omega)
        simpa using h
      rw [hdrop]
      simp only [ih hrest]
      simp [firstSNIEntryName, hcond]

/-- The wire bytes of an extension list parse back, by the unguarded outer
loop of sniff.go, to the name of the first productive server_name
extension. -/
theorem extLoop_extsBytes :
    ∀ exts : List Ext, (∀ e ∈ exts, wfExt e = true) →
      extLoop (extsBytes exts) = .ok (sniOfExts exts) := by
  intro exts
  induction exts with
  | nil =>
    intro _
    rw [extLoop]
    simp [extsBytes, sniOfExts]
  | cons e rest ih =>
    intro hwf
    have hwfe := hwf e (List.mem_cons_self _ _)
    have hrest := fun x hx => hwf x (List.mem_cons_of_mem _ hx)
    cases e with
    | other t payload =>
      simp only [wfExt, Bool.and_eq_true, decide_eq_true_eq] at hwfe
      obtain ⟨⟨ht0, ht65⟩, hp65⟩ := hwfe
      have hbytes : extsBytes (Ext.other t payload :: rest) =
          t / 256 :: t % 256 :: payload.length / 256 :: payload.length % 256 ::
            (payload ++ extsBytes rest) := by
        simp [extsBytes, encodeExt, be16]
      rw [extLoop, dif_neg (by rw [hbytes]; simp)]
      rw [hbytes]
      simp only [goIdx, List.getElem?_cons_zero, List.getElem?_cons_succ]
      have ht : t / 256 * 256 + t % 256 = t := by omega
      have hp : payload.length / 256 * 256 + payload.length % 256 =
          payload.length := by omega
      rw [ht, hp]
      have hslice : goSlice
          (t / 256 :: t % 256 :: payload.length / 256 :: payload.length % 256 ::
            (payload ++ extsBytes rest)) 4 (4 + payload.length) =
          .ok payload := by
        have h := goSlice_append 4 (4 + payload.length)
          [t / 256, t % 256, payload.length / 256, payload.length % 256]
          payload (extsBytes rest) (by simp) rfl
        simpa using h
      simp only [hslice]
      rw [if_neg (by omega : ¬t = 0)]
      have hdrop : goDrop (4 + payload.length)
          (t / 256 :: t % 256 :: payload.length / 256 :: payload.length % 256 ::
            (payload ++ extsBytes rest)) = .ok (extsBytes rest) := by
        have h := goDrop_append (4 + payload.length)
          ([t / 256, t % 256, payload.length / 256, payload.length % 256] ++
            payload) (extsBytes rest) (by simp; omega)
        simpa using h
      rw [hdrop]
      simp only [ih hrest]
      simp [sniOfExts]
    | sni entries =>
      simp only [wfExt, Bool.and_eq_true, decide_eq_true_eq,
        List.all_eq_true] at hwfe
      obtain ⟨hEB, hent⟩ := hwfe
      have hent' : ∀ x ∈ entries, wfEntry x = true := fun x hx => hent x hx
      have hbytes : extsBytes (Ext.sni entries :: rest) =
          0 :: 0 :: (2 + ((entries.map encodeSNIEntry).flatten).length) / 256 ::
            (2 + ((entries.map encodeSNIEntry).flatten).length) % 256 ::
            ((((entries.map encodeSNIEntry).flatten).length / 256 ::
              ((entries.map encodeSNIEntry).flatten).length % 256 ::
              (entries.map encodeSNIEntry).flatten) ++ extsBytes rest) := by
        simp [extsBytes, encodeExt, be16]
      rw [extLoop, dif_neg (by rw [hbytes]; simp)]
      rw [hbytes]
      simp only [goIdx, List.getElem?_cons_zero, List.getElem?_cons_succ]
      have hB : (2 + ((entries.map encodeSNIEntry).flatten).length) / 256 * 256 +
          (2 + ((entries.map encodeSNIEntry).flatten).length) % 256 =
          2 + ((entries.map encodeSNIEntry).flatten).length := by omega
      rw [hB]
      have hslice : goSlice
          (0 :: 0 :: (2 + ((entries.map encodeSNIEntry).flatten).length) / 256 ::
            (2 + ((entries.map encodeSNIEntry).flatten).length) % 256 ::
            ((((entries.map encodeSNIEntry).flatten).length / 256 ::
              ((entries.map encodeSNIEntry).flatten).length % 256 ::
              (entries.map encodeSNIEntry).flatten) ++ extsBytes rest)) 4
          (4 + (2 + ((entries.map encodeSNIEntry).flatten).length)) =
          .ok (((entries.map encodeSNIEntry).flatten).length / 256 ::
            ((entries.map encodeSNIEntry).flatten).length % 256 ::
            (entries.map encodeSNIEntry).flatten) := by
        have h := goSlice_append 4
          (4 + (2 + ((entries.map encodeSNIEntry).flatten).length))
          [0, 0, (2 + ((entries.map encodeSNIEntry).flatten).length) / 256,
            (2 + ((entries.map encodeSNIEntry).flatten).length) % 256]
          (((entries.map encodeSNIEntry).flatten).length / 256 ::
            ((entries.map encodeSNIEntry).flatten).length % 256 ::
            (entries.map encodeSNIEntry).flatten)
          (extsBytes rest) (by simp) (by simp; omega)
        simpa using h
      simp only [hslice]
      rw [if_pos trivial]
      have hdrop2 : goDrop 2
          (((entries.map encodeSNIEntry).flatten).length / 256 ::
            ((entries.map encodeSNIEntry).flatten).length % 256 ::
            (entries.map encodeSNIEntry).flatten) =
          .ok ((entries.map encodeSNIEntry).flatten) := by
        have h := goDrop_append 2
          [((entries.map encodeSNIEntry).flatten).length / 256,
            ((entries.map encodeSNIEntry).flatten).length % 256]
          ((entries.map encodeSNIEntry).flatten) (by simp)
        simpa using h
      simp only [hdrop2]
      simp only [sniEntryLoop_entries entries hent']
      cases hfst : firstSNIEntryName entries with
      | some name =>
        simp [sniOfExts, hfst]
      | none =>
        have hdrop : goDrop
            (4 + (2 + ((entries.map encodeSNIEntry).flatten).length))
            (0 :: 0 :: (2 + ((entries.map encodeSNIEntry).flatten).length) / 256 ::
              (2 + ((entries.map encodeSNIEntry).flatten).length) % 256 ::
              ((((entries.map encodeSNIEntry).flatten).length / 256 ::
                ((entries.map encodeSNIEntry).flatten).length % 256 ::
                (entries.map encodeSNIEntry).flatten) ++ extsBytes rest)) =
            .ok (extsBytes rest) := by
          have h := goDrop_append
            (4 + (2 + ((entries.map encodeSNIEntry).flatten).length))
            ([0, 0, (2 + ((entries.map encodeSNIEntry).flatten).length) / 256,
              (2 + ((entries.map encodeSNIEntry).flatten).length) % 256] ++
              (((entries.map encodeSNIEntry).flatten).length / 256 ::
                ((entries.map encodeSNIEntry).flatten).length % 256 ::
                (entries.map encodeSNIEntry).flatten))
            (extsBytes rest) (by simp; omega)
          simpa using h
        rw [hdrop]
        simp only [ih hrest]
        simp [sniOfExts, hfst]

/-- A serialized ClientHello body parses back, by parseHandshakeRecord of
sniff.go, to exactly the server name the structure carries. -/
theorem parseHandshakeRecord_chBody (ch : ClientHello) (hwf : wfCH ch = true) :
    parseHandshakeRecord (chBody ch) = .ok (expectedSNI ch) := by
  obtain ⟨vr, sess, cs, cm, exts⟩ := ch
  simp only [wfCH, Bool.and_eq_true, decide_eq_true_eq] at hwf
  obtain ⟨⟨⟨⟨⟨hvr, hsess⟩, hcs⟩, hcm⟩, hext⟩, hbody⟩ := hwf
  rw [parseHandshakeRecord]
  have hidx0 : goIdx (chBody ⟨vr, sess, cs, cm, exts⟩) 0 = .ok 0x01 := by
    simp [chBody, goIdx]
  simp only [hidx0]
  simp only [ne_eq, not_true_eq_false, if_false, reduceIte]
  have hsplit1 : chBody ⟨vr, sess, cs, cm, exts⟩ =
      (0x01 :: (be24 (34 + (sess.length :: sess ++ be16 cs.length ++ cs ++
          cm.length :: cm ++ extPartBytes exts).length) ++
        vr)) ++
      (sess.length :: sess ++ be16 cs.length ++ cs ++ cm.length :: cm ++
        extPartBytes exts) := by
    simp [chBody]
  have hd38 : goDrop 38 (chBody ⟨vr, sess, cs, cm, exts⟩) =
      .ok (sess.length :: sess ++ be16 cs.length ++ cs ++ cm.length :: cm ++
        extPartBytes exts) := by
    rw [hsplit1]
    exact goDrop_append 38 _ _ (by simp [be24, hvr]; try omega)
  simp only [hd38]
  have hidxS : goIdx (sess.length :: sess ++ be16 cs.length ++ cs ++
      cm.length :: cm ++ extPartBytes exts) 0 =
      .ok sess.length := by
    simp [goIdx]
  simp only [hidxS]
  have hdS : goDrop (1 + sess.length) (sess.length :: sess ++ be16 cs.length ++
      cs ++ cm.length :: cm ++ extPartBytes exts) =
      .ok (be16 cs.length ++ cs ++ cm.length :: cm ++ extPartBytes exts) := by
    have h := goDrop_append (1 + sess.length) (sess.length :: sess)
      (be16 cs.length ++ cs ++ cm.length :: cm ++ extPartBytes exts)
      (by simp; try omega)
    simpa using h
  simp only [hdS]
  have hshape2 : be16 cs.length ++ cs ++ cm.length :: cm ++ extPartBytes exts =
      cs.length / 256 :: cs.length % 256 :: (cs ++ cm.length :: cm ++
        extPartBytes exts) := by
    simp [be16]
  simp only [hshape2]
  simp only [goIdx, List.getElem?_cons_zero, List.getElem?_cons_succ]
  have hcsA : cs.length / 256 * 256 + cs.length % 256 = cs.length := by omega
  simp only [hcsA]
  have hdC : goDrop (2 + cs.length) (cs.length / 256 :: cs.length % 256 ::
      (cs ++ cm.length :: cm ++ extPartBytes exts)) =
      .ok (cm.length :: cm ++ extPartBytes exts) := by
    have h := goDrop_append (2 + cs.length)
      ([cs.length / 256, cs.length % 256] ++ cs)
      (cm.length :: cm ++ extPartBytes exts)
      (by simp; try omega)
    simpa using h
  simp only [hdC]
  simp only [List.cons_append, List.getElem?_cons_zero]
  have hdM : goDrop (1 + cm.length) (cm.length :: (cm ++ extPartBytes exts)) =
      .ok (extPartBytes exts) := by
    have h := goDrop_append (1 + cm.length) (cm.length :: cm)
      (extPartBytes exts) (by simp; try omega)
    simpa using h
  simp only [hdM]
  cases exts with
  | none =>
    simp [extPartBytes, expectedSNI]
  | some es =>
    simp only [List.all_eq_true, Bool.and_eq_true, decide_eq_true_eq] at hext
    obtain ⟨hEBlen, hwfes⟩ := hext
    have hshape3 : extPartBytes (some es) =
        (extsBytes es).length / 256 :: (extsBytes es).length % 256 ::
          extsBytes es := by
      simp [extPartBytes, be16]
    simp only [hshape3]
    have hlen0 : ((extsBytes es).length / 256 :: (extsBytes es).length % 256 ::
        extsBytes es).length ≠ 0 := by simp
    simp only [if_neg hlen0]
    simp only [goIdx, List.getElem?_cons_zero, List.getElem?_cons_succ]
    have hd2E : goDrop 2 ((extsBytes es).length / 256 ::
        (extsBytes es).length % 256 :: extsBytes es) = .ok (extsBytes es) := by
      have h := goDrop_append 2
        [(extsBytes es).length / 256, (extsBytes es).length % 256]
        (extsBytes es) (by simp; try omega)
      simpa using h
    simp only [hd2E]
    have hEA : (extsBytes es).length / 256 * 256 + (extsBytes es).length % 256 =
        (extsBytes es).length := by omega
    simp only [hEA]
    simp only [not_true, if_false]
    simp only [extLoop_extsBytes es (fun e he => hwfes e he)]
    simp [expectedSNI]

/-- Prefetch while recording, with room in the pooled buffer and enough
stream bytes: it returns the next n stream bytes and appends them to the
buffer. -/
theorem prefetch_recording (stream buffer : List Byte) (n : Nat)
    (h1 : buffer.length + n ≤ bufferCap) (h2 : n ≤ stream.length) :
    CConn.prefetch n ⟨stream, buffer, none⟩ =
      (.ok (stream.take n), ⟨stream.drop n, buffer ++ stream.take n, none⟩) := by
  have hfull : ¬ bufferCap < buffer.length + n := by omega
  have htake : n ≤ (stream.take n).length := by
    simp [List.length_take]
    omega
  simp [CConn.prefetch, hfull, htake, h2]

/-- Prefetch while recording when the n extra bytes would overflow the
pooled buffer: the buffer-full error, with the state unchanged. -/
theorem prefetch_recording_full (stream buffer : List Byte) (n : Nat)
    (h : bufferCap < buffer.length + n) :
    CConn.prefetch n ⟨stream, buffer, none⟩ =
      (.error .bufferFull, ⟨stream, buffer, none⟩) := by
  simp [CConn.prefetch, h]

/-- One Read call never loses or duplicates bytes: what it returns,
followed by what the connection still has pending, is exactly what was
pending before the call. -/
theorem readStep_pending (k : Nat) (c : CConn) :
    (c.readStep k).1 ++ (c.readStep k).2.pending = c.pending := by
  obtain ⟨conn, buffer, used⟩ := c
  cases used with
  | none => simp [CConn.readStep, CConn.pending]
  | some u =>
    by_cases h : u < buffer.length
    · simp only [CConn.readStep, CConn.pending, if_pos h]
      rw [← List.append_assoc]
      congr 1
      by_cases hk : k ≤ (buffer.drop u).length
      · rw [List.length_take, Nat.min_eq_left hk]
        rw [← List.drop_drop k u buffer]
        exact List.take_append_drop k (buffer.drop u)
      · have hbu : (buffer.drop u).take k = buffer.drop u :=
          List.take_of_length_le (by omega)
        rw [hbu]
        have : buffer.drop (u + (buffer.drop u).length) = [] := by
          apply List.drop_eq_nil_of_le
          simp
          omega
        simp [this]
        try omega
    · simp only [CConn.readStep, CConn.pending, if_neg h]
      have : buffer.drop u = [] := List.drop_eq_nil_of_le (by omega)
      simp [this]

/-- One Read call with a nonempty buffer argument makes progress whenever
bytes are pending. -/
theorem readStep_progress (k : Nat) (c : CConn) (hk : 1 ≤ k)
    (hp : c.pending ≠ []) : 1 ≤ (c.readStep k).1.length := by
  obtain ⟨conn, buffer, used⟩ := c
  cases used with
  | none =>
    simp only [CConn.pending] at hp
    have : conn.length ≠ 0 := fun h0 => hp (List.eq_nil_of_length_eq_zero h0)
    simp [CConn.readStep, List.length_take]
    omega
  | some u =>
    by_cases h : u < buffer.length
    · simp only [CConn.readStep, if_pos h]
      simp [List.length_take]
      omega
    · simp only [CConn.pending] at hp
      have hdrop : buffer.drop u = [] := List.drop_eq_nil_of_le (by omega)
      rw [hdrop, List.nil_append] at hp
      have : conn.length ≠ 0 := fun h0 => hp (List.eq_nil_of_length_eq_zero h0)
      simp [CConn.readStep, if_neg h, List.length_take]
      omega

/-- With at least one Read call of at least one byte per pending byte, the
delivered stream is exactly the pending stream: nothing lost, nothing
duplicated, in order. -/
theorem delivered_pending (sizes : List Nat) (c : CConn)
    (hall : ∀ k ∈ sizes, 1 ≤ k) (hlen : c.pending.length ≤ sizes.length) :
    c.delivered sizes = c.pending := by
  induction sizes generalizing c with
  | nil =>
    simp only [List.length_nil, Nat.le_zero] at hlen
    have : c.pending = [] := List.eq_nil_of_length_eq_zero hlen
    simp [CConn.delivered, this]
  | cons k rest ih =>
    have hstep := readStep_pending k c
    have hk1 : 1 ≤ k := hall k (by simp)
    have hl := congrArg List.length hstep
    simp only [List.length_append] at hl
    have hlen2 : ((c.readStep k).2).pending.length ≤ rest.length := by
      rcases eq_or_ne c.pending [] with hp | hp
      · rw [hp] at hl
        simp only [List.length_nil] at hl
        omega
      · have hprog := readStep_progress k c hk1 hp
        have hls : c.pending.length ≤ rest.length + 1 := by simpa using hlen
        omega
    have hrest := ih ((c.readStep k).2)
      (fun j hj => hall j (by simp [hj])) hlen2
    simp only [CConn.delivered]
    rw [hrest, hstep]

/-- Sniffing a serialized well-formed ClientHello whose record, header
included, fits the pooled buffer: the result is the carried server name,
and the connection ends up recording with the whole record buffered and
only the tail bytes left on the stream. -/
theorem sniffServerName_chRecord (ch : ClientHello) (tail : List Byte)
    (hwf : wfCH ch = true) (hfit : 5 + (chBody ch).length ≤ bufferCap) :
    sniffServerName (CConn.mkNew (chRecord ch ++ tail)) =
      (.ok (expectedSNI ch), ⟨tail, chRecord ch, none⟩) := by
  have hL1 : (chBody ch).length ≠ 0 := by
    simp [chBody]
  have hL16384 : (chBody ch).length ≤ 16384 := by
    simp only [wfCH, Bool.and_eq_true, decide_eq_true_eq] at hwf
    exact hwf.2
  have hrec : chRecord ch = [0x16, 0x03, 0x03, (chBody ch).length / 256,
      (chBody ch).length % 256] ++ chBody ch := by
    simp [chRecord, be16]
  have hshape : chRecord ch ++ tail = [0x16, 0x03, 0x03,
      (chBody ch).length / 256, (chBody ch).length % 256] ++
      (chBody ch ++ tail) := by
    rw [hrec, List.append_assoc]
  have htake5 : (chRecord ch ++ tail).take 5 = [0x16, 0x03, 0x03,
      (chBody ch).length / 256, (chBody ch).length % 256] := by
    rw [hshape]
    exact List.take_left' (by simp)
  have hdrop5 : (chRecord ch ++ tail).drop 5 = chBody ch ++ tail := by
    rw [hshape]
    exact List.drop_left' (by simp)
  have hp1 : CConn.prefetch 5 ⟨chRecord ch ++ tail, [], none⟩ =
      (.ok [0x16, 0x03, 0x03, (chBody ch).length / 256,
        (chBody ch).length % 256],
       ⟨chBody ch ++ tail, [0x16, 0x03, 0x03, (chBody ch).length / 256,
        (chBody ch).length % 256], none⟩) := by
    have h := prefetch_recording (chRecord ch ++ tail) [] 5
      (by simp [bufferCap]) (by rw [hshape]; simp)
    rw [htake5, hdrop5] at h
    simpa using h
  rw [sniffServerName, CConn.mkNew]
  simp only [hp1]
  simp only [List.length_cons, List.length_nil, List.headD_cons, ne_eq,
    reduceCtorEq, not_true_eq_false, or_self, if_false, reduceIte,
    List.getD_cons_succ, List.getD_cons_zero]
  have harith : (chBody ch).length / 256 * 256 + (chBody ch).length % 256 =
      (chBody ch).length := by omega
  simp only [harith]
  rw [if_neg (id (by omega :
    ¬((chBody ch).length = 0 ∨ 16384 < (chBody ch).length)))]
  have hp2 : CConn.prefetch (chBody ch).length
      ⟨chBody ch ++ tail, [0x16, 0x03, 0x03, (chBody ch).length / 256,
        (chBody ch).length % 256], none⟩ =
      (.ok (chBody ch), ⟨tail, chRecord ch, none⟩) := by
    have h := prefetch_recording (chBody ch ++ tail)
      [0x16, 0x03, 0x03, (chBody ch).length / 256,
        (chBody ch).length % 256] (chBody ch).length
      (by simp only [List.length_cons, List.length_nil]; omega)
      (by simp)
    rw [List.take_left' rfl, List.drop_left' rfl] at h
    rw [h, ← hrec]
  simp only [hp2]
  rw [if_neg (by simp)]
  simp only [parseHandshakeRecord_chBody ch hwf]

/-- C2. For every well-formed ClientHello record followed by arbitrary tail
bytes, provided the record plus its 5 header bytes fits the 4096-byte
prefetch buffer, SNI extraction over the sniffing connection returns the
server name carried in the first name_type zero server_name entry (the
empty string when there are no extensions or no SNI extension), and after
Rewind any exhaustive sequence of Read calls delivers exactly the record
followed by the tail, in order, with nothing lost or duplicated. -/
theorem C2_sni_roundtrip (ch : ClientHello) (tail : List Byte)
    (sizes : List Nat) (hwf : wfCH ch = true)
    (hfit : 5 + (chBody ch).length ≤ bufferCap)
    (hall : ∀ k ∈ sizes, 1 ≤ k)
    (hlen : (chRecord ch ++ tail).length ≤ sizes.length) :
    (sniffServerName (CConn.mkNew (chRecord ch ++ tail))).1 =
      .ok (expectedSNI ch) ∧
    (((sniffServerName (CConn.mkNew (chRecord ch ++ tail))).2.rewind).1).delivered
      sizes = chRecord ch ++ tail := by
  have hs := sniffServerName_chRecord ch tail hwf hfit
  rw [hs]
  refine ⟨rfl, ?_⟩
  have hr : (CConn.rewind ⟨tail, chRecord ch, none⟩).1 =
      ⟨tail, chRecord ch, some 0⟩ := rfl
  rw [hr]
  have hp : (⟨tail, chRecord ch, some 0⟩ : CConn).pending =
      chRecord ch ++ tail := by
    simp [CConn.pending]
  rw [← hp]
  exact delivered_pending sizes _ hall (by rw [hp]; exact hlen)

/-- C2, witness: the 64-byte record of the concrete hello chW followed by
two tail bytes, read back one byte at a time after Rewind, yields the SNI
and replays all 66 bytes exactly. -/
theorem C2_sni_roundtrip_witness :
    (sniffServerName (CConn.mkNew (chRecord chW ++ [1, 2]))).1 =
      .ok (expectedSNI chW) ∧
    (((sniffServerName (CConn.mkNew (chRecord chW ++ [1, 2]))).2.rewind).1).delivered
      (List.replicate 66 1) = chRecord chW ++ [1, 2] :=
  C2_sni_roundtrip chW [1, 2] (List.replicate 66 1) (by decide) (by decide)
    (by decide) (by decide)

/-- C2, counterexample: the well-formed hello chBig carries the server name
x, yet its 4092-byte record cannot be prefetched past the 4096-byte buffer
together with the 5 header bytes, so extraction fails with the buffer-full
connection error instead of returning the name. -/
theorem C2_sni_roundtrip_counterexample :
    wfCH chBig = true ∧ expectedSNI chBig = [120] ∧
    (sniffServerName (CConn.mkNew (chRecord chBig))).1 =
      .error (.connErr .bufferFull) := by
  have hlenBig : (chBody chBig).length = 4092 := by
    simp only [chBody, chBig, extPartBytes, extsBytes, encodeExt,
      encodeSNIEntry, be16, be24, List.map_cons, List.map_nil,
      List.flatten_cons, List.flatten_nil, List.length_cons,
      List.length_append, List.length_replicate, List.length_nil]
    try omega
  have hcs : (chBig.cipherSuites).length = 4037 := by
    rw [show chBig.cipherSuites = List.replicate 4037 0 from rfl,
      List.length_replicate]
  have hwfBig : wfCH chBig = true := by
    simp only [wfCH, Bool.and_eq_true, decide_eq_true_eq]
    refine ⟨⟨⟨⟨⟨by decide, by decide⟩, by omega⟩, by decide⟩, by decide⟩,
      by omega⟩
  refine ⟨hwfBig, rfl, ?_⟩
  have hrec : chRecord chBig = [0x16, 0x03, 0x03, 15, 252] ++ chBody chBig := by
    rw [chRecord, hlenBig]
    norm_num [be16]
  have hp1 : CConn.prefetch 5 ⟨chRecord chBig, [], none⟩ =
      (.ok [0x16, 0x03, 0x03, 15, 252],
       ⟨chBody chBig, [0x16, 0x03, 0x03, 15, 252], none⟩) := by
    have h := prefetch_recording (chRecord chBig) [] 5
      (by simp [bufferCap]) (by rw [hrec]; simp)
    rw [hrec] at h
    rw [List.take_left' (by simp), List.drop_left' (by simp)] at h
    simpa [← hrec] using h
  rw [sniffServerName, CConn.mkNew]
  simp only [hp1]
  simp only [List.length_cons, List.length_nil, List.headD_cons, ne_eq,
    reduceCtorEq, not_true_eq_false, or_self, if_false, reduceIte,
    List.getD_cons_succ, List.getD_cons_zero]
  have hp2 : CConn.prefetch (15 * 256 + 252)
      ⟨chBody chBig, [0x16, 0x03, 0x03, 15, 252], none⟩ =
      (.error .bufferFull, ⟨chBody chBig, [0x16, 0x03, 0x03, 15, 252], none⟩) :=
    prefetch_recording_full _ _ _ (by simp [bufferCap])
  simp only [hp2]
  norm_num
